import Mathlib

/-!
Verification development for the stock-screener spreadsheet pipeline.

This file gives a shallow embedding, in Lean 4, of the core pure logic of
the repository: the numeric utilities (utils/format.ts), the CAGR engine
(calc_metrics/cagr.ts, function calculateMetricCAGRs), the per-share
builder (per_share/builder.ts), and the upsert utilities (utils/upsert.ts:
upsertByKey, upsertLongTable, buildKeyMap).

Modelling conventions:
- JavaScript numbers are modelled by exact rationals; a JavaScript value
  of number-or-null type is modelled by Option of the rational numbers.
  Real-number exponentiation (Math.pow with a fractional exponent) is
  modelled by real rpow, so the CAGR values live in Option of the reals.
- Sheet cells are modelled by an inductive Cell type (string, number,
  bool, null); the blank cell is the empty string cell, as in the host
  API where getValues returns the empty string for blank cells.
- JavaScript Map objects and header-index objects are modelled as
  functions from String to Option of an index, updated pointwise, which
  matches the last-write-wins update semantics of those objects.
- Numeric cells are rendered to strings with the Lean notion of toString
  on rationals; this differs in format from the JavaScript rendering but
  preserves equality and inequality of keys built from numeric cells.
-/

namespace Screener

/-! ## Sheet cells and JavaScript string coercions -/

/-- A spreadsheet / JavaScript value as it appears in a row. The empty
string cell is the blank cell. -/
inductive Cell where
  | str (s : String)
  | num (q : ℚ)
  | bool (b : Bool)
  | null
deriving DecidableEq, Repr

/-- JavaScript truthiness for a Cell: the empty string, zero, false and
null are falsy. -/
def cellTruthy : Cell → Bool
  | Cell.str s => s ≠ ""
  | Cell.num q => q ≠ 0
  | Cell.bool b => b
  | Cell.null => false

/-- JavaScript String(v) coercion of a cell. -/
def cellString : Cell → String
  | Cell.str s => s
  | Cell.num q => toString q
  | Cell.bool b => cond b "true" "false"
  | Cell.null => "null"

/-- The idiom String(v || ...) with the empty string as the fallback, used
throughout the source when reading cells: falsy values coerce to the
empty string. -/
def jsStringOr (c : Cell) : String :=
  if cellTruthy c then cellString c else ""

/-- An ASCII whitespace character, for the trim model. -/
def jsWhitespace (c : Char) : Bool :=
  c = ' ' ∨ c = '\t' ∨ c = '\n' ∨ c = '\r'

/-- JavaScript String.prototype.trim, modelled structurally on the
character list: leading and trailing whitespace removed. -/
def jsTrim (s : String) : String :=
  ⟨((s.data.dropWhile jsWhitespace).reverse.dropWhile jsWhitespace).reverse⟩

/-- Lexicographic order on character lists by code point, the order of
the default JavaScript Array sort on strings. -/
def charListLe : List Char → List Char → Bool
  | [], _ => true
  | _ :: _, [] => false
  | a :: as, b :: bs =>
      if a.toNat < b.toNat then true
      else if b.toNat < a.toNat then false
      else charListLe as bs

/-- The default JavaScript string comparison used by Array sort. -/
def jsStrLe (a b : String) : Bool := charListLe a.data b.data

/-- nullToEmpty from utils/format.ts: null (and undefined) becomes the
empty string, every other value is kept. -/
def nullToEmpty (c : Cell) : Cell :=
  match c with
  | Cell.null => Cell.str ""
  | c => c

/-! ## Numeric utilities (utils/format.ts)

The functions below act on Option of the rationals, the image of toNum:
by the time the core logic runs, every raw cell has already been pushed
through toNum, so none (null) stands for every coercion failure. -/

/-- floor01 from utils/format.ts: null propagates; a value less than or
equal to zero is floored to 1/100 (that is 0.01); positive values pass
through unchanged. -/
def floor01 (v : Option ℚ) : Option ℚ :=
  match v with
  | none => none
  | some n => if n ≤ 0 then some (1/100) else some n

/-- safeDiv from utils/format.ts: null if either operand is null or the
denominator is exactly zero, otherwise the exact quotient. -/
def safeDiv (num den : Option ℚ) : Option ℚ :=
  match num, den with
  | some n, some d => if d = 0 then none else some (n / d)
  | _, _ => none

/-- JavaScript Math.round: round half away from negative infinity
(Math.round of negative two point five is negative two). -/
def jsRound (q : ℚ) : ℤ := ⌊q + 1/2⌋

/-- round3 from utils/format.ts: null propagates, otherwise
Math.round (v times 1000) divided by 1000. -/
def round3 (v : Option ℚ) : Option ℚ :=
  match v with
  | none => none
  | some q => some ((jsRound (q * 1000) : ℚ) / 1000)

/-- round4 from utils/format.ts, acting on the real result of a CAGR
computation: Math.round (v times 10000) divided by 10000. -/
noncomputable def round4R (x : ℝ) : ℝ := (⌊x * 10000 + 1/2⌋ : ℤ) / 10000

/-- firstNonNull from utils/format.ts, specialised to the post-toNum
values used by the per-share builder: the first entry that is not null. -/
def firstNonNull : List (Option ℚ) → Option ℚ
  | [] => none
  | some q :: _ => some q
  | none :: rest => firstNonNull rest

/-- Rendering of a computed Option value into an output cell, modelled
from the spec: the host write layer (setValues) renders null as a blank
cell, and a number as a numeric cell. -/
def renderCell : Option ℚ → Cell
  | none => Cell.str ""
  | some q => Cell.num q

/-! ## CAGR engine (calc_metrics/cagr.ts) -/

/-- One row of the Per_Share table as indexed by indexByTicker in
calc_metrics/cagr.ts: a fiscal year plus the three tracked per-share
metrics, each already passed through toNum. -/
structure YearRecord where
  fy : ℤ
  opps : Option ℚ
  eps : Option ℚ
  fcfps : Option ℚ
deriving DecidableEq, Repr

/-- The record with no data, used as the out-of-range default for list
indexing (the source never indexes out of range). -/
def emptyYearRecord : YearRecord := ⟨0, none, none, none⟩

/-- The three tracked metrics (CAGR_CONFIG.METRICS in globals.ts). -/
inductive Metric where
  | OpPS
  | EPS
  | FCFPS
deriving DecidableEq, Repr

/-- Field access series[i][metricName]. -/
def YearRecord.get (r : YearRecord) : Metric → Option ℚ
  | Metric.OpPS => r.opps
  | Metric.EPS => r.eps
  | Metric.FCFPS => r.fcfps

/-- series[i][metricName] with the JavaScript-side guarantee that the
index is in range; out of range yields the empty record. -/
def metricAt (series : List YearRecord) (i : ℕ) (m : Metric) : Option ℚ :=
  (series.getD i emptyYearRecord).get m

/-- The raw (pre-floor) latest value series[lastIdx][metricName]
(calculateMetricCAGRs, and also the shared end endpoint of every CAGR
window, since endIdx = lastIdx in all three window blocks). -/
def latestRawOf (series : List YearRecord) (m : Metric) : Option ℚ :=
  metricAt series (series.length - 1) m

/-- The raw start endpoint series[lastIdx - k][metricName] of the k-year
window in calculateMetricCAGRs. -/
def windowStartRaw (series : List YearRecord) (m : Metric) (k : ℕ) : Option ℚ :=
  metricAt series (series.length - 1 - k) m

/-- latestWasAdjusted in calculateMetricCAGRs:
latestRaw not null and latestRaw at most zero. -/
def latestAdjComponent (series : List YearRecord) (m : Metric) : Bool :=
  match latestRawOf series m with
  | some q => decide (q ≤ 0)
  | none => false

/-- The adjustment component of one window, from the raw endpoints
(calculateMetricCAGRs: endRaw not null and at most 0, or startRaw not
null and at most 0). -/
def adjComponent (endRaw startRaw : Option ℚ) : Bool :=
  (match endRaw with | some q => decide (q ≤ 0) | none => false) ||
  (match startRaw with | some q => decide (q ≤ 0) | none => false)

/-- adj5Y / adj9Y / adj10Y in calculateMetricCAGRs: the window adjustment
component, false when the minimum-history requirement is not met (the
local is initialised to false and only assigned inside the length
guard). -/
def windowAdj (series : List YearRecord) (m : Metric) (k minRows : ℕ) : Bool :=
  if minRows ≤ series.length then
    adjComponent (latestRawOf series m) (windowStartRaw series m k)
  else false

/-- cagr5Y / cagr9Y / cagr10Y in calculateMetricCAGRs: inside the length
guard, both endpoints are floored independently; when both floored
endpoints are non-null and the floored start is positive, the CAGR is
round4 of the k-th root of the floored ratio minus one; otherwise null.
The source computes the CAGR and the adjustment component in one block
per window; they are split into windowCAGR and windowAdj here so that
theorems can speak about each. -/
noncomputable def windowCAGR (series : List YearRecord) (m : Metric) (k minRows : ℕ) : Option ℝ :=
  if minRows ≤ series.length then
    match floor01 (latestRawOf series m), floor01 (windowStartRaw series m k) with
    | some e, some s =>
        if 0 < s then some (round4R (((e : ℝ) / (s : ℝ)) ^ ((1 : ℝ) / (k : ℝ)) - 1)) else none
    | _, _ => none
  else none

/-- The output of calculateMetricCAGRs for one metric. -/
structure CAGRResult where
  latest : Option ℚ
  cagr5Y : Option ℝ
  cagr9Y : Option ℝ
  cagr10Y : Option ℝ
  adjustedFlag : Bool

/-- calculateMetricCAGRs from calc_metrics/cagr.ts: latest is the floored
latest value; the three windows use (window size, minimum rows) of
(5, 6), (9, 10) and (10, 11); the adjusted flag is the disjunction of
the latest component and the three window components. -/
noncomputable def calculateMetricCAGRs (series : List YearRecord) (m : Metric) : CAGRResult :=
  { latest := floor01 (latestRawOf series m)
    cagr5Y := windowCAGR series m 5 6
    cagr9Y := windowCAGR series m 9 10
    cagr10Y := windowCAGR series m 10 11
    adjustedFlag :=
      latestAdjComponent series m || windowAdj series m 5 6 ||
        windowAdj series m 9 10 || windowAdj series m 10 11 }

/-! ## Per-share builder (per_share/builder.ts) -/

/-- JavaScript String.prototype.includes, used for the ticker suffix
check: true when the second string occurs as a contiguous substring of
the first. -/
def jsIncludes (s sub : String) : Bool := decide (sub.data <:+: s.data)

/-- The ticker normalisation in indexByTickerYear (per_share/builder.ts):
a ticker that does not already contain ".PSE" gets the literal ".PSE"
appended; any ticker that contains it is left unchanged. -/
def normalizeTicker (t : String) : String :=
  if jsIncludes t ".PSE" then t else t ++ ".PSE"

/-- One row of the long Raw_Fundamentals_Annual table, as produced by
readLongTable (per_share/builder.ts): the ticker and section and field
are trimmed strings, the fiscal year has been through toInt and the
value through toNum. -/
structure LongRow where
  ticker : String
  fiscalYear : Option ℤ
  sec : String
  field : String
  value : Option ℚ
deriving DecidableEq, Repr

/-- The per-year bucket built by indexByTickerYear: income-statement and
balance-sheet fields. Absent (undefined) and null field values are both
modelled as none; every consumer reads these fields through toNum or
firstNonNull, which identify the two. -/
structure YearData where
  isRevenue : Option ℚ := none
  isGrossProfit : Option ℚ := none
  isOperatingIncome : Option ℚ := none
  isNetIncome : Option ℚ := none
  isSharesDiluted : Option ℚ := none
  bsEquity : Option ℚ := none
  bsDebt : Option ℚ := none
  bsSharesDiluted : Option ℚ := none
  bsEquityAlt1 : Option ℚ := none
  bsEquityAlt2 : Option ℚ := none
  bsEquityAlt3 : Option ℚ := none
  bsDebtAlt1 : Option ℚ := none
  bsDebtAlt2 : Option ℚ := none
deriving DecidableEq, Repr

/-- The empty bucket, as created when a ticker/year pair is first seen. -/
def emptyYearData : YearData := {}

/-- The field dispatch of indexByTickerYear (per_share/builder.ts),
bucketing one long row into a YearData according to its section and
field name, with the field constants of PER_SHARE_FIELDS in globals.ts. -/
def applyField (sec field : String) (v : Option ℚ) (d : YearData) : YearData :=
  if sec = "Income_Statement" then
    if field = "Revenue" then { d with isRevenue := v }
    else if field = "GrossProfit" then { d with isGrossProfit := v }
    else if field = "OperatingIncome" then { d with isOperatingIncome := v }
    else if field = "NetIncome" then { d with isNetIncome := v }
    else if field = "SharesDiluted" then { d with isSharesDiluted := v }
    else d
  else if sec = "Balance_Sheet" then
    if field = "TotalStockholdersEquity" then { d with bsEquity := v }
    else if field = "TotalDebt" then { d with bsDebt := v }
    else if field = "SharesDiluted" then { d with bsSharesDiluted := v }
    else if field = "TotalStockholderEquity" then { d with bsEquityAlt1 := v }
    else if field = "TotalEquity" then { d with bsEquityAlt2 := v }
    else if field = "StockholdersEquity" then { d with bsEquityAlt3 := v }
    else if field = "TotalLiab" then { d with bsDebtAlt1 := v }
    else if field = "TotalLiabilities" then { d with bsDebtAlt2 := v }
    else d
  else d

/-- Update-or-insert into an association list, the model of assignment
into a JavaScript object keyed by strings or years: an existing key is
updated in place, a new key is appended. -/
def updateA {α : Type} [DecidableEq α] {β : Type} (xs : List (α × β)) (key : α) (dflt : β) (f : β → β) : List (α × β) :=
  match xs with
  | [] => [(key, f dflt)]
  | (a, b) :: rest =>
      if a = key then (a, f b) :: rest else (a, b) :: updateA rest key dflt f

/-- The nested ticker-to-year-to-bucket structure of indexByTickerYear. -/
abbrev TickerYearData := List (String × List (ℤ × YearData))

/-- One step of indexByTickerYear: rows with a falsy ticker or fiscal
year are skipped, the ticker is normalised with the ".PSE" suffix rule,
and the row value is bucketed into the (ticker, year) entry. -/
def indexStep (acc : TickerYearData) (r : LongRow) : TickerYearData :=
  if r.ticker = "" then acc
  else
    match r.fiscalYear with
    | none => acc
    | some fy =>
        if fy = 0 then acc
        else
          updateA acc (normalizeTicker r.ticker) []
            (fun ys => updateA ys fy emptyYearData (applyField r.sec r.field r.value))

/-- indexByTickerYear from per_share/builder.ts. -/
def indexByTickerYear (rows : List LongRow) : TickerYearData :=
  rows.foldl indexStep []

/-- The JavaScript test v and v greater than zero on a number-or-null
value, as used twice in getValidShares. -/
def jsPos (o : Option ℚ) : Bool :=
  match o with
  | some q => decide (0 < q)
  | none => false

/-- getValidShares from per_share/builder.ts: prefer the income-statement
diluted share count when it is a positive number, else fall back to the
balance-sheet count; return 0 unless the chosen value is positive. -/
def getValidShares (d : YearData) : ℚ :=
  let shares := if jsPos d.isSharesDiluted then d.isSharesDiluted else d.bsSharesDiluted
  if jsPos shares then shares.getD 0 else 0

/-- The equity fallback chain of calculateRowMetrics
(per_share/builder.ts): primary field first, then the three accepted
alternates, through firstNonNull. -/
def equityChain (d : YearData) : Option ℚ :=
  firstNonNull [d.bsEquity, d.bsEquityAlt1, d.bsEquityAlt2, d.bsEquityAlt3]

/-- The debt fallback chain of calculateRowMetrics. -/
def debtChain (d : YearData) : Option ℚ :=
  firstNonNull [d.bsDebt, d.bsDebtAlt1, d.bsDebtAlt2]

/-- One output row of the per-share builder. The source builds a row
array [ticker, year, and the six derived cells in order]; the array
positions are named here. A none cell renders blank in the sheet. -/
structure PerShareRow where
  ticker : String
  fiscalYear : ℤ
  revenuePS : Option ℚ
  gpPS : Option ℚ
  opPS : Option ℚ
  niPS : Option ℚ
  equityPS : Option ℚ
  dte : Option ℚ
deriving DecidableEq, Repr

/-- calculateRowMetrics from per_share/builder.ts: each aggregate divided
by the valid share count through safeDiv, the debt-to-equity ratio as
debt over equity (not divided by shares), and every cell rounded to 3
decimals with null propagation. -/
def calculateRowMetrics (ticker : String) (year : ℤ) (shares : ℚ) (d : YearData) : PerShareRow :=
  { ticker := ticker
    fiscalYear := year
    revenuePS := round3 (safeDiv d.isRevenue (some shares))
    gpPS := round3 (safeDiv d.isGrossProfit (some shares))
    opPS := round3 (safeDiv d.isOperatingIncome (some shares))
    niPS := round3 (safeDiv d.isNetIncome (some shares))
    equityPS := round3 (safeDiv (equityChain d) (some shares))
    dte := round3 (safeDiv (debtChain d) (equityChain d)) }

/-- The year-picking loop of calculatePerShareMetrics: walk the years in
the given (descending) order, keep entries whose valid share count is
positive, and stop as soon as ten entries have been kept. -/
def pickLoop : List (ℤ × YearData) → List (ℤ × ℚ × YearData) → List (ℤ × ℚ × YearData)
  | [], acc => acc
  | (y, d) :: rest, acc =>
      let shares := getValidShares d
      let acc2 := if 0 < shares then acc ++ [(y, shares, d)] else acc
      if 10 ≤ acc2.length then acc2 else pickLoop rest acc2

/-- calculatePerShareMetrics from per_share/builder.ts: tickers sorted
ascending, each ticker's years sorted descending, the first ten years
with valid shares picked, re-sorted ascending, and one row computed per
kept year. The two sorts model the stable JavaScript Array sort. -/
def calculatePerShareMetrics (data : TickerYearData) : List PerShareRow :=
  let tickers := (data.map Prod.fst).insertionSort (fun a b => jsStrLe a b = true)
  tickers.flatMap (fun t =>
    let yearsMap := (data.lookup t).getD []
    let years := (yearsMap.map Prod.fst).insertionSort (fun a b => b ≤ a)
    let validYears := pickLoop (years.map (fun y => (y, (yearsMap.lookup y).getD emptyYearData))) []
    let validAsc := validYears.insertionSort (fun a b => a.1 ≤ b.1)
    validAsc.map (fun e => calculateRowMetrics t e.1 e.2.1 e.2.2))

/-! ## Upsert engine (utils/upsert.ts)

A sheet is modelled as its grid of rows (row 1 of the sheet is index 0
of the list; the header row, when present, is the first row). getLastRow
is the number of rows, getLastColumn is the maximal row length, and
getValues pads the read rectangle with blank cells. -/

/-- A sheet row. -/
abbrev Row := List Cell

/-- An incoming row object: properties looked up by name; a missing name
models an absent property (undefined). -/
abbrev RowObj := List (String × Cell)

/-- Pad a row with blank cells up to the given width (the rectangle
padding of getValues, and the row-extension loop of upsertByKey). -/
def padTo (r : Row) (n : ℕ) : Row := r ++ List.replicate (n - r.length) (Cell.str "")

/-- getLastColumn, at least 1 (Math.max(1, sheet.getLastColumn())). -/
def maxRowLen (g : List Row) : ℕ := g.foldr (fun r acc => max r.length acc) 0

/-- The cell of a grid at (row index, column index), blank when out of
range; this matches the padded rectangle view of the sheet. -/
def cellAt (g : List Row) (i c : ℕ) : Cell := (g.getD i []).getD c (Cell.str "")

/-- buildHeaderIndex from utils/sheets.ts: each header name (trimmed) is
mapped to its column index by a forEach assignment, so for a duplicated
name the last occurrence wins. Modelled as the lookup function of the
resulting object. -/
def buildHeaderIndex (headers : List String) : String → Option ℕ := fun name =>
  (headers.foldl (fun st h =>
      (st.1 + 1, if jsTrim h = name then some st.1 else st.2)) (0, none)).2

/-- The evolving header of upsertByKey: the header name list together
with the incrementally updated header-index object. -/
structure HeaderSt where
  header : List String
  hidx : String → Option ℕ

/-- The ensure-column step of upsertByKey: a name already present in the
index is left alone; a missing name is pushed onto the header and given
the new last index. The raw (untrimmed) name is pushed and indexed,
exactly as in the source. -/
def ensureCol (st : HeaderSt) (col : String) : HeaderSt :=
  if (st.hidx col).isSome then st
  else
    { header := st.header ++ [col]
      hidx := fun s => if s = col then some st.header.length else st.hidx s }

/-- The effective write-column list of upsertByKey: the key column is
prepended when absent (lines ensuring the key column is in the write
list). -/
def effectiveCols (keyColumn : String) (columnsToWrite : List String) : List String :=
  if keyColumn ∈ columnsToWrite then columnsToWrite else keyColumn :: columnsToWrite

/-- The header string list read by upsertByKey from the first row of the
grid: each cell through String(v or blank).trim(). -/
def sheetHeader (grid : List Row) : List String :=
  match grid.head? with
  | some r0 => (padTo r0 (max 1 (maxRowLen grid))).map (fun c => jsTrim (jsStringOr c))
  | none => []

/-- The final header state of upsertByKey: the header read from the
sheet, then the key column ensured, then (when appendMissingColumns)
every write column ensured. -/
def upsertHeaderSt (grid : List Row) (keyColumn : String) (columnsToWrite : List String)
    (appendMissingColumns : Bool) : HeaderSt :=
  let header0 := sheetHeader grid
  let st0 : HeaderSt := { header := header0, hidx := buildHeaderIndex header0 }
  let st1 := ensureCol st0 keyColumn
  if appendMissingColumns then (effectiveCols keyColumn columnsToWrite).foldl ensureCol st1
  else st1

/-- The key cell of a row rendered and trimmed, as used when building
rowByKey in upsertByKey. -/
def rowKeyString (r : Row) (keyColIdx : ℕ) : String :=
  jsTrim (jsStringOr (r.getD keyColIdx (Cell.str "")))

/-- The initial rowByKey map of upsertByKey: data rows (indices from 1)
with a non-empty key register their index; for duplicate keys the later
row wins. -/
def initRowByKey (data : List Row) (keyColIdx : ℕ) : String → Option ℕ := fun k =>
  if k = "" then none
  else ((List.range data.length).filter
      (fun i => 1 ≤ i ∧ rowKeyString (data.getD i []) keyColIdx = k)).getLast?

/-- Property lookup obj[name] on an incoming row object; none models an
absent property. -/
def objGet (o : RowObj) (name : String) : Option Cell := o.lookup name

/-- The write of one effective column of one incoming object into the
grid at the given row: skipped when the column has no index or the
object does not own the property; the value goes through nullToEmpty. -/
def writeCell (st : HeaderSt) (obj : RowObj) (rowIdx : ℕ) (d : List Row) (col : String) :
    List Row :=
  match st.hidx col, objGet obj col with
  | some cIdx, some v => d.set rowIdx ((d.getD rowIdx []).set cIdx (nullToEmpty v))
  | _, _ => d

/-- The inner write loop of upsertByKey over the effective columns. -/
def writeCols (st : HeaderSt) (obj : RowObj) (rowIdx : ℕ) (cols : List String)
    (d : List Row) : List Row :=
  cols.foldl (writeCell st obj rowIdx) d

/-- The per-object step of upsertByKey: skip objects with an empty
trimmed key; look the key up in rowByKey, appending a fresh blank row
with the key cell set when absent (and registering it, so a later object
with the same key in the same batch updates the appended row); then
write every effective column the object owns through nullToEmpty. -/
def upsertStep (st : HeaderSt) (keyColIdx : ℕ) (keyColumn : String) (cols : List String)
    (acc : List Row × (String → Option ℕ)) (obj : RowObj) : List Row × (String → Option ℕ) :=
  let data := acc.1
  let rowByKey := acc.2
  let rawKey : Cell := (objGet obj keyColumn).getD Cell.null
  let key := jsTrim (jsStringOr rawKey)
  if key = "" then acc
  else
    let found := rowByKey key
    let rowIdx := found.getD data.length
    let data1 :=
      match found with
      | some _ => data
      | none =>
          data ++ [(List.replicate st.header.length (Cell.str "")).set keyColIdx (Cell.str key)]
    let rowByKey1 :=
      match found with
      | some _ => rowByKey
      | none => fun k => if k = key then some rowIdx else rowByKey k
    (writeCols st obj rowIdx cols data1, rowByKey1)

/-- upsertByKey from utils/upsert.ts: read the grid, build the header
state, extend every row to the header width, build rowByKey from the
data rows, process each incoming object, and write the resulting grid
back (clearContents followed by one setValues of the whole grid). An
empty incoming batch returns immediately. -/
def upsertByKey (grid : List Row) (keyColumn : String) (columnsToWrite : List String)
    (incoming : List RowObj) (appendMissingColumns : Bool) : List Row :=
  if incoming.isEmpty then grid
  else
    let cols := effectiveCols keyColumn columnsToWrite
    let st := upsertHeaderSt grid keyColumn columnsToWrite appendMissingColumns
    let data0 := grid.map (fun r => padTo r st.header.length)
    let keyColIdx := (st.hidx keyColumn).getD 0
    (incoming.foldl (upsertStep st keyColIdx keyColumn cols)
      (data0, initRowByKey data0 keyColIdx)).1

/-! ### Long-table upsert (upsertLongTable) and key map (buildKeyMap) -/

/-- setValues of a single row at a 1-indexed row number: overwrite in
range, extend the grid (with empty filler rows) when beyond the last
row. -/
def setRow (g : List Row) (rowNum : ℕ) (row : Row) : List Row :=
  if rowNum ≤ g.length then g.set (rowNum - 1) row
  else g ++ List.replicate (rowNum - g.length - 1) [] ++ [row]

/-- setValues of a block of rows starting at a 1-indexed row number. -/
def setRowsAt (g : List Row) (rowNum : ℕ) (rows : List Row) : List Row :=
  (rows.foldl (fun st row => (setRow st.1 st.2 row, st.2 + 1)) (g, rowNum)).1

/-- Assignment updates[rowNum] = row on the updates object of
upsertLongTable: unique keys, new entries appended. -/
def updSet (u : List (ℕ × Row)) (rowNum : ℕ) (row : Row) : List (ℕ × Row) :=
  match u with
  | [] => [(rowNum, row)]
  | (a, b) :: rest => if a = rowNum then (a, row) :: rest else (a, b) :: updSet rest rowNum row

/-- The composite key of an incoming row: the key-column cells rendered
with String(v or blank) and joined with the broken-bar separator; a key
column missing from the header contributes the empty string. -/
def compositeKeyOf (row : Row) (keyIndices : List (Option ℕ)) : String :=
  String.intercalate "¦"
    (keyIndices.map (fun oi =>
      match oi with
      | some i => jsStringOr (row.getD i Cell.null)
      | none => ""))

/-- upsertLongTable from utils/upsert.ts. The loop splits the batch into
in-place updates (rows whose composite key is in the existing key map)
and appends; an appended row immediately registers the row number
getLastRow() plus the number of appends so far. After the loop the
updates are executed first, in ascending row order (the iteration order
of integer-like object keys), and the appends are then written starting
below the last row as re-read after those updates. -/
def upsertLongTable (grid : List Row) (existingKeyMap : String → Option ℕ)
    (headers : List String) (newRows : List Row) (keyColumns : List String) : List Row :=
  if newRows.isEmpty then grid
  else
    let hidx := buildHeaderIndex headers
    let keyIndices := keyColumns.map hidx
    let step := fun (acc : List (ℕ × Row) × List Row × (String → Option ℕ)) (row : Row) =>
      let ck := compositeKeyOf row keyIndices
      match acc.2.2 ck with
      | some r => (updSet acc.1 r row, acc.2.1, acc.2.2)
      | none =>
          let app2 := acc.2.1 ++ [row]
          let nextRow := grid.length + app2.length
          (acc.1, app2, fun k => if k = ck then some nextRow else acc.2.2 k)
    let res := newRows.foldl step ([], [], existingKeyMap)
    let g1 := (res.1.insertionSort (fun a b => a.1 ≤ b.1)).foldl
      (fun g p => setRow g p.1 p.2) grid
    if res.2.1.isEmpty then g1 else setRowsAt g1 (g1.length + 1) res.2.1

/-- The trim-tested guard of buildKeyMap: the row is registered only when
at least one key part has a non-empty trim. -/
def anyKeyContent (parts : List String) : Bool := parts.any (fun p => jsTrim p ≠ "")

/-- The row loop of buildKeyMap: data rows are visited in order starting
at sheet row 2, and each registered composite key overwrites any earlier
mapping (last occurrence wins). The counter argument is the 0-based
index into the values rectangle. -/
def buildKeyMapRows (keyIndices : List (Option ℕ)) :
    List Row → ℕ → (String → Option ℕ) → (String → Option ℕ)
  | [], _, m => m
  | row :: rest, i, m =>
      let parts := keyIndices.map (fun oi =>
        match oi with
        | some c => jsStringOr (row.getD c Cell.null)
        | none => "")
      let ck := String.intercalate "¦" parts
      let m2 := if anyKeyContent parts then (fun k => if k = ck then some (i + 1) else m k) else m
      buildKeyMapRows keyIndices rest (i + 1) m2

/-- The key-column index resolution of buildKeyMap: every key column must
be present in the header; a single missing one aborts with none. -/
def resolveKeyIndices (hidx : String → Option ℕ) : List String → Option (List ℕ)
  | [] => some []
  | c :: rest =>
      match hidx c with
      | none => none
      | some i => (resolveKeyIndices hidx rest).map (fun l => i :: l)

/-- The padded data rows (below the header) of a grid, as read by the
getValues rectangle. -/
def dataRowsOf (grid : List Row) : List Row :=
  (grid.map (fun r => padTo r (max 1 (maxRowLen grid)))).drop 1

/-- buildKeyMap from utils/upsert.ts: the empty map for a sheet with
fewer than two rows, the empty map when any key column is absent from
the header (the store is treated as new), and otherwise the composite
key of every data row with any key content mapped to its 1-indexed sheet
row number, later rows overwriting earlier ones. -/
def buildKeyMap (grid : List Row) (keyColumns : List String) : String → Option ℕ :=
  if grid.length < 2 then fun _ => none
  else
    match resolveKeyIndices (buildHeaderIndex (sheetHeader grid)) keyColumns with
    | none => fun _ => none
    | some keyIndices => buildKeyMapRows (keyIndices.map some) (dataRowsOf grid) 1 (fun _ => none)

/-! ## Reference predicates and concrete scenario data -/

/-- A raw endpoint value that is non-null and at most zero: the condition
under which the floor rule fires. -/
def rawNonPos (o : Option ℚ) : Prop := ∃ q, o = some q ∧ q ≤ 0

/-- A value that is non-null and strictly positive (a valid diluted share
count). -/
def isPosNum (o : Option ℚ) : Prop := ∃ q, o = some q ∧ 0 < q

instance (o : Option ℚ) : Decidable (rawNonPos o) := by
  unfold rawNonPos
  cases o with
  | none => exact Decidable.isFalse (by simp)
  | some q => exact decidable_of_iff (q ≤ 0) (by simp)

instance (o : Option ℚ) : Decidable (isPosNum o) := by
  unfold isPosNum
  cases o with
  | none => exact Decidable.isFalse (by simp)
  | some q => exact decidable_of_iff (0 < q) (by simp)

/-- The index of the last data row whose composite key equals the given
key and which has some key content; the reference notion for the
last-occurrence-wins behaviour of buildKeyMap. -/
def lastKeyOccurrence (keyIndices : List ℕ) : List Row → String → Option ℕ
  | [], _ => none
  | row :: rest, k =>
      match lastKeyOccurrence keyIndices rest k with
      | some j => some (j + 1)
      | none =>
          let parts := keyIndices.map (fun c => jsStringOr (row.getD c Cell.null))
          if String.intercalate "¦" parts = k ∧ anyKeyContent parts then some 0 else none

/-- The literal ACME scenario of the spec: operating-income-per-share by
fiscal year 2015 to 2020, values -2.0, 0.5, 1.0, 1.5, 2.0, 3.0. -/
def acmeSeries : List YearRecord :=
  [⟨2015, some (-2), none, none⟩, ⟨2016, some (1/2), none, none⟩,
   ⟨2017, some 1, none, none⟩, ⟨2018, some (3/2), none, none⟩,
   ⟨2019, some 2, none, none⟩, ⟨2020, some 3, none, none⟩]

/-- A five-year series (below every window gate). -/
def shortSeries : List YearRecord :=
  [⟨2016, some 1, none, none⟩, ⟨2017, some 2, none, none⟩, ⟨2018, some 3, none, none⟩,
   ⟨2019, some 4, none, none⟩, ⟨2020, some 5, none, none⟩]

/-- An eleven-year series (above every window gate), operating income per
share 1 to 11 over 2010 to 2020. -/
def longSeries : List YearRecord :=
  [⟨2010, some 1, none, none⟩, ⟨2011, some 2, none, none⟩, ⟨2012, some 3, none, none⟩,
   ⟨2013, some 4, none, none⟩, ⟨2014, some 5, none, none⟩, ⟨2015, some 6, none, none⟩,
   ⟨2016, some 7, none, none⟩, ⟨2017, some 8, none, none⟩, ⟨2018, some 9, none, none⟩,
   ⟨2019, some 10, none, none⟩, ⟨2020, some 11, none, none⟩]

/-- A concrete calculated-metrics style grid with a duplicated key among
its data rows: header, then keys A, B, A. -/
def kmGrid : List Row :=
  [[Cell.str "K", Cell.str "V"], [Cell.str "A", Cell.num 1],
   [Cell.str "B", Cell.num 2], [Cell.str "A", Cell.num 3]]

/-- A header-only long-table grid (no data rows yet). -/
def ltGrid0 : List Row := [[Cell.str "K", Cell.str "V"]]

/-- Two incoming long-table rows with the same composite key A. -/
def ltRowA1 : Row := [Cell.str "A", Cell.num 1]

def ltRowA2 : Row := [Cell.str "A", Cell.num 2]

/-- A store whose header has only the key column, missing the written
column X. -/
def ubGrid0 : List Row := [[Cell.str "Ticker"], [Cell.str "MSFT"]]

/-- A batch writing the new column X for the existing key MSFT. -/
def ubBatch : List RowObj := [[("Ticker", Cell.str "MSFT"), ("X", Cell.num 1)]]

/-- A year bucket whose only share datum is a zero income-statement
diluted count (and no balance-sheet count at all). -/
def psBadData : YearData := { isSharesDiluted := some 0 }

/-- A year bucket with a valid diluted count. -/
def psGoodData : YearData := { isSharesDiluted := some 5, isOperatingIncome := some 10 }

/-- A two-ticker data set: X has only an invalid-shares year, Y.PSE a
valid one. -/
def psData2 : TickerYearData := [("X", [(2020, psBadData)]), ("Y.PSE", [(2020, psGoodData)])]

/-- Well-formedness of a header state: every index is within the header
and no two distinct names share an index. It holds for the header state
built by upsertByKey. -/
def HWF (st : HeaderSt) : Prop :=
  (∀ s i, st.hidx s = some i → i < st.header.length) ∧
  (∀ s1 s2 i, st.hidx s1 = some i → st.hidx s2 = some i → s1 = s2)

/-- A column position that no effective write column resolves to: the
positions of the N minus K columns outside the written column set. -/
def unwritten (st : HeaderSt) (cols : List String) (c : ℕ) : Prop :=
  ∀ col ∈ cols, st.hidx col ≠ some c

instance (st : HeaderSt) (cols : List String) (c : ℕ) : Decidable (unwritten st cols c) :=
  inferInstanceAs (Decidable (∀ col ∈ cols, st.hidx col ≠ some c))

/-- The loop invariant of the upsertByKey fold: original rows keep their
unwritten cells, appended rows are blank off the written columns with a
populated key cell, the row map stays in range, and all rows keep at
least the header width. -/
def UpsertInv (origLen headerLen : ℕ) (wprop : ℕ → Prop) (kIdx : ℕ) (data0 : List Row)
    (s : List Row × (String → Option ℕ)) : Prop :=
  origLen ≤ s.1.length ∧
  (∀ i, i < origLen → ∀ c, wprop c → cellAt s.1 i c = cellAt data0 i c) ∧
  (∀ j, origLen ≤ j → j < s.1.length →
    (∀ c, wprop c → cellAt s.1 j c = Cell.str "") ∧
    cellAt s.1 j kIdx ≠ Cell.str "") ∧
  (∀ k r, s.2 k = some r → r < s.1.length) ∧
  (∀ i, i < s.1.length → headerLen ≤ (s.1.getD i []).length)

/-- A store with three columns of which only Ticker and Val are written;
Note is an unrelated column with a value to preserve. -/
def upGrid : List Row :=
  [[Cell.str "Ticker", Cell.str "Val", Cell.str "Note"],
   [Cell.str "MSFT", Cell.num 4, Cell.str "keep"]]

/-- A batch updating MSFT and appending AAPL, writing only Val. -/
def upBatch : List RowObj :=
  [[("Ticker", Cell.str "MSFT"), ("Val", Cell.num 5)],
   [("Ticker", Cell.str "AAPL"), ("Val", Cell.num 3)]]

/-! ## Lemmas about the CAGR engine components -/

theorem adjComponent_eq_true_iff (e s : Option ℚ) :
    adjComponent e s = true ↔ rawNonPos e ∨ rawNonPos s := by
  cases e <;> cases s <;> simp [adjComponent, rawNonPos]

theorem latestAdjComponent_eq_true_iff (series : List YearRecord) (m : Metric) :
    latestAdjComponent series m = true ↔ rawNonPos (latestRawOf series m) := by
  unfold latestAdjComponent
  cases h : latestRawOf series m <;> simp [rawNonPos, h]

theorem windowAdj_eq_true_iff (series : List YearRecord) (m : Metric) (k minRows : ℕ) :
    windowAdj series m k minRows = true ↔
      minRows ≤ series.length ∧
        (rawNonPos (latestRawOf series m) ∨ rawNonPos (windowStartRaw series m k)) := by
  unfold windowAdj
  by_cases h : minRows ≤ series.length
  · simp [h, adjComponent_eq_true_iff]
  · simp [h]

/-- Claim C1: for each tracked metric of every ticker series, the emitted
AdjustedFlag is true iff the raw (pre-floor) latest value, or the raw
endpoint of one of the three CAGR windows whose minimum-history
requirement is met, is non-null and at most zero; and each window
adjustment component is computed purely from the raw endpoint signs
under its history gate (so it is independent of whether the CAGR was
computable, false when the gate fails, and false when both raw endpoints
are positive). -/
theorem cagr_adjustedFlag_spec (series : List YearRecord) (m : Metric) :
    ((calculateMetricCAGRs series m).adjustedFlag = true ↔
      (rawNonPos (latestRawOf series m) ∨
        (6 ≤ series.length ∧
          (rawNonPos (latestRawOf series m) ∨ rawNonPos (windowStartRaw series m 5))) ∨
        (10 ≤ series.length ∧
          (rawNonPos (latestRawOf series m) ∨ rawNonPos (windowStartRaw series m 9))) ∨
        (11 ≤ series.length ∧
          (rawNonPos (latestRawOf series m) ∨ rawNonPos (windowStartRaw series m 10))))) ∧
    (∀ k minRows : ℕ,
      windowAdj series m k minRows = true ↔
        (minRows ≤ series.length ∧
          (rawNonPos (latestRawOf series m) ∨ rawNonPos (windowStartRaw series m k)))) := by
  constructor
  · show (_ || _ || _ || _) = true ↔ _
    simp only [Bool.or_eq_true, latestAdjComponent_eq_true_iff, windowAdj_eq_true_iff]
    tauto
  · exact fun k minRows => windowAdj_eq_true_iff series m k minRows

/-- Witness for C1 at the ACME series: the flag is true, through the
5-year window component (raw start -2). -/
theorem cagr_adjustedFlag_spec_witness :
    (rawNonPos (latestRawOf acmeSeries Metric.OpPS) ∨
        (6 ≤ acmeSeries.length ∧
          (rawNonPos (latestRawOf acmeSeries Metric.OpPS) ∨
            rawNonPos (windowStartRaw acmeSeries Metric.OpPS 5))) ∨
        (10 ≤ acmeSeries.length ∧
          (rawNonPos (latestRawOf acmeSeries Metric.OpPS) ∨
            rawNonPos (windowStartRaw acmeSeries Metric.OpPS 9))) ∨
        (11 ≤ acmeSeries.length ∧
          (rawNonPos (latestRawOf acmeSeries Metric.OpPS) ∨
            rawNonPos (windowStartRaw acmeSeries Metric.OpPS 10)))) ∧
      (calculateMetricCAGRs acmeSeries Metric.OpPS).adjustedFlag = true :=
  ⟨by decide,
   ((cagr_adjustedFlag_spec acmeSeries Metric.OpPS).1).mpr (by decide)⟩

/-- Claim C2: each CAGR window is gated on its minimum history (N at
least 6, 10, 11 for the 5-, 9- and 10-year windows), emitting null and a
false adjustment component below the gate; above the gate, when both
floored endpoints floorToPositive series[N-1] and floorToPositive
series[N-1-k] are non-null with a positive floored start, the k-year
CAGR equals round4 of (endAdj divided by startAdj) to the power 1 over k,
minus one. -/
theorem cagr_windows_spec (series : List YearRecord) (m : Metric) :
    (series.length < 6 →
      (calculateMetricCAGRs series m).cagr5Y = none ∧ windowAdj series m 5 6 = false) ∧
    (∀ e s : ℚ, 6 ≤ series.length →
      floor01 (metricAt series (series.length - 1) m) = some e →
      floor01 (metricAt series (series.length - 6) m) = some s → 0 < s →
      (calculateMetricCAGRs series m).cagr5Y =
        some (round4R (((e : ℝ) / (s : ℝ)) ^ ((1 : ℝ) / (5 : ℕ)) - 1))) ∧
    (series.length < 10 →
      (calculateMetricCAGRs series m).cagr9Y = none ∧ windowAdj series m 9 10 = false) ∧
    (∀ e s : ℚ, 10 ≤ series.length →
      floor01 (metricAt series (series.length - 1) m) = some e →
      floor01 (metricAt series (series.length - 10) m) = some s → 0 < s →
      (calculateMetricCAGRs series m).cagr9Y =
        some (round4R (((e : ℝ) / (s : ℝ)) ^ ((1 : ℝ) / (9 : ℕ)) - 1))) ∧
    (series.length < 11 →
      (calculateMetricCAGRs series m).cagr10Y = none ∧ windowAdj series m 10 11 = false) ∧
    (∀ e s : ℚ, 11 ≤ series.length →
      floor01 (metricAt series (series.length - 1) m) = some e →
      floor01 (metricAt series (series.length - 11) m) = some s → 0 < s →
      (calculateMetricCAGRs series m).cagr10Y =
        some (round4R (((e : ℝ) / (s : ℝ)) ^ ((1 : ℝ) / (10 : ℕ)) - 1))) := by
  have hs5 : series.length - 1 - 5 = series.length - 6 := by omega
  have hs9 : series.length - 1 - 9 = series.length - 10 := by omega
  have hs10 : series.length - 1 - 10 = series.length - 11 := by omega
  refine ⟨?_, ?_, ?_, ?_, ?_, ?_⟩
  · intro h
    have h6 : ¬ (6 ≤ series.length) := by omega
    exact ⟨by simp [calculateMetricCAGRs, windowCAGR, h6], by simp [windowAdj, h6]⟩
  · intro e s h6 he hs hpos
    show windowCAGR series m 5 6 = _
    unfold windowCAGR
    rw [if_pos h6]
    unfold latestRawOf windowStartRaw
    rw [hs5, he, hs]
    simp [hpos]
  · intro h
    have h10 : ¬ (10 ≤ series.length) := by omega
    exact ⟨by simp [calculateMetricCAGRs, windowCAGR, h10], by simp [windowAdj, h10]⟩
  · intro e s h10 he hs hpos
    show windowCAGR series m 9 10 = _
    unfold windowCAGR
    rw [if_pos h10]
    unfold latestRawOf windowStartRaw
    rw [hs9, he, hs]
    simp [hpos]
  · intro h
    have h11 : ¬ (11 ≤ series.length) := by omega
    exact ⟨by simp [calculateMetricCAGRs, windowCAGR, h11], by simp [windowAdj, h11]⟩
  · intro e s h11 he hs hpos
    show windowCAGR series m 10 11 = _
    unfold windowCAGR
    rw [if_pos h11]
    unfold latestRawOf windowStartRaw
    rw [hs10, he, hs]
    simp [hpos]

/-- Witness for C2: on a five-year series the 5-year CAGR is null with a
false window component, and on an eleven-year series each window yields
the rounded root-ratio formula with its own exponent. -/
theorem cagr_windows_spec_witness :
    (shortSeries.length < 6 ∧
      (calculateMetricCAGRs shortSeries Metric.OpPS).cagr5Y = none ∧
      windowAdj shortSeries Metric.OpPS 5 6 = false) ∧
    (shortSeries.length < 10 ∧
      (calculateMetricCAGRs shortSeries Metric.OpPS).cagr9Y = none) ∧
    (shortSeries.length < 11 ∧
      (calculateMetricCAGRs shortSeries Metric.OpPS).cagr10Y = none) ∧
    (6 ≤ longSeries.length ∧
      floor01 (metricAt longSeries (longSeries.length - 1) Metric.OpPS) = some 11 ∧
      floor01 (metricAt longSeries (longSeries.length - 6) Metric.OpPS) = some 6 ∧
      (0:ℚ) < 6 ∧
      (calculateMetricCAGRs longSeries Metric.OpPS).cagr5Y =
        some (round4R ((((11:ℚ) : ℝ) / ((6:ℚ) : ℝ)) ^ ((1 : ℝ) / (5 : ℕ)) - 1))) ∧
    (10 ≤ longSeries.length ∧
      floor01 (metricAt longSeries (longSeries.length - 10) Metric.OpPS) = some 2 ∧
      (calculateMetricCAGRs longSeries Metric.OpPS).cagr9Y =
        some (round4R ((((11:ℚ) : ℝ) / ((2:ℚ) : ℝ)) ^ ((1 : ℝ) / (9 : ℕ)) - 1))) ∧
    (11 ≤ longSeries.length ∧
      floor01 (metricAt longSeries (longSeries.length - 11) Metric.OpPS) = some 1 ∧
      (calculateMetricCAGRs longSeries Metric.OpPS).cagr10Y =
        some (round4R ((((11:ℚ) : ℝ) / ((1:ℚ) : ℝ)) ^ ((1 : ℝ) / (10 : ℕ)) - 1))) :=
  ⟨⟨by decide, (cagr_windows_spec shortSeries Metric.OpPS).1 (by decide)⟩,
   ⟨by decide, ((cagr_windows_spec shortSeries Metric.OpPS).2.2.1 (by decide)).1⟩,
   ⟨by decide, ((cagr_windows_spec shortSeries Metric.OpPS).2.2.2.2.1 (by decide)).1⟩,
   ⟨by decide, by decide, by decide, by norm_num,
    (cagr_windows_spec longSeries Metric.OpPS).2.1 11 6 (by decide) (by decide) (by decide)
      (by norm_num)⟩,
   ⟨by decide, by decide,
    (cagr_windows_spec longSeries Metric.OpPS).2.2.2.1 11 2 (by decide) (by decide) (by decide)
      (by norm_num)⟩,
   ⟨by decide, by decide,
    (cagr_windows_spec longSeries Metric.OpPS).2.2.2.2.2 11 1 (by decide) (by decide) (by decide)
      (by norm_num)⟩⟩

/-! ## The ACME scenario (C4) -/

theorem pow5_root : ((300:ℝ) ^ ((1:ℝ)/5)) ^ (5:ℕ) = 300 := by
  have h0 : (0:ℝ) ≤ 300 := by norm_num
  rw [← Real.rpow_natCast ((300:ℝ) ^ ((1:ℝ)/5)) 5, ← Real.rpow_mul h0]
  norm_num

theorem root300_bounds :
    (62581:ℝ)/20000 ≤ (300:ℝ) ^ ((1:ℝ)/5) ∧ (300:ℝ) ^ ((1:ℝ)/5) < (62583:ℝ)/20000 := by
  have hx : (0:ℝ) ≤ (300:ℝ) ^ ((1:ℝ)/5) := Real.rpow_nonneg (by norm_num) _
  constructor
  · apply le_of_pow_le_pow_left₀ (n := 5) (by norm_num) hx
    rw [pow5_root]
    norm_num
  · by_contra hc
    push_neg at hc
    have h5 : ((62583:ℝ)/20000) ^ (5:ℕ) ≤ ((300:ℝ) ^ ((1:ℝ)/5)) ^ (5:ℕ) :=
      pow_le_pow_left₀ (by norm_num) hc 5
    rw [pow5_root] at h5
    norm_num at h5

theorem round4R_root300 : round4R ((300:ℝ) ^ ((1:ℝ)/5) - 1) = (21291:ℝ)/10000 := by
  obtain ⟨hlb, hub⟩ := root300_bounds
  unfold round4R
  have hf : ⌊((300:ℝ) ^ ((1:ℝ)/5) - 1) * 10000 + 1/2⌋ = 21291 := by
    rw [Int.floor_eq_iff]
    constructor
    · push_cast
      nlinarith
    · push_cast
      nlinarith
  rw [hf]
  norm_num

theorem acme_cagr5_raw :
    (calculateMetricCAGRs acmeSeries Metric.OpPS).cagr5Y =
      some (round4R ((((3:ℚ) : ℝ) / (((1:ℚ)/100 : ℚ) : ℝ)) ^ ((1:ℝ)/((5:ℕ):ℝ)) - 1)) := by
  show windowCAGR acmeSeries Metric.OpPS 5 6 = _
  have hl : latestRawOf acmeSeries Metric.OpPS = some 3 := rfl
  have hs : windowStartRaw acmeSeries Metric.OpPS 5 = some (-2) := rfl
  have hlen : (6:ℕ) ≤ acmeSeries.length := by decide
  unfold windowCAGR
  rw [if_pos hlen, hl, hs]
  norm_num [floor01]

theorem acme_cagr5_value :
    (calculateMetricCAGRs acmeSeries Metric.OpPS).cagr5Y = some ((21291:ℝ)/10000) := by
  rw [acme_cagr5_raw]
  have hcast : (((3:ℚ) : ℝ) / (((1:ℚ)/100 : ℚ) : ℝ)) = (300:ℝ) := by
    push_cast
    norm_num
  have h5 : ((1:ℝ)/((5:ℕ):ℝ)) = (1:ℝ)/5 := by norm_num
  rw [hcast, h5, round4R_root300]

/-- Counterexample for C4: on the literal ACME series, the 5-year CAGR
emitted by the engine is not 3.0229; the exact rounded value of
(3.0 divided by 0.01) to the power one fifth, minus one, is 2.1291. -/
theorem acme_scenario_counterexample :
    (calculateMetricCAGRs acmeSeries Metric.OpPS).cagr5Y ≠ some ((30229:ℝ)/10000) := by
  rw [acme_cagr5_value]
  intro h
  have := Option.some.inj h
  norm_num at this

/-- Claim C4 (amended): for the literal ACME scenario the engine emits
OpPS latest 3.0 with a false latest component, a 5-year CAGR of
round4 of ((3.0 divided by 0.01) to the power one fifth, minus one),
which equals 2.1291 (the spec prints 3.0229, which is not the value of
that expression), a true 5-year window component, and a true
OpPS AdjustedFlag. -/
theorem acme_scenario_amended :
    (calculateMetricCAGRs acmeSeries Metric.OpPS).latest = some 3 ∧
    latestAdjComponent acmeSeries Metric.OpPS = false ∧
    (calculateMetricCAGRs acmeSeries Metric.OpPS).cagr5Y = some ((21291:ℝ)/10000) ∧
    windowAdj acmeSeries Metric.OpPS 5 6 = true ∧
    (calculateMetricCAGRs acmeSeries Metric.OpPS).adjustedFlag = true :=
  ⟨by decide, by decide, acme_cagr5_value, by decide, by decide⟩

/-! ## buildKeyMap (C7) -/

theorem resolveKeyIndices_eq_none (hidx : String → Option ℕ) (cols : List String)
    (h : ∃ col ∈ cols, hidx col = none) : resolveKeyIndices hidx cols = none := by
  induction cols with
  | nil => simp at h
  | cons c rest ih =>
      obtain ⟨col, hmem, hnone⟩ := h
      rcases List.mem_cons.mp hmem with rfl | hmem2
      · simp [resolveKeyIndices, hnone]
      · unfold resolveKeyIndices
        cases hc : hidx c with
        | none => rfl
        | some i => rw [ih ⟨col, hmem2, hnone⟩]; rfl

theorem buildKeyMapRows_eq (idxs : List ℕ) (rows : List Row) (i : ℕ)
    (m : String → Option ℕ) (k : String) :
    buildKeyMapRows (idxs.map some) rows i m k =
      match lastKeyOccurrence idxs rows k with
      | some j => some (i + j + 1)
      | none => m k := by
  induction rows generalizing i m with
  | nil => simp [buildKeyMapRows, lastKeyOccurrence]
  | cons row rest ih =>
      unfold buildKeyMapRows lastKeyOccurrence
      have hparts : (idxs.map some).map
          (fun oi => match oi with
            | some c => jsStringOr (row.getD c Cell.null)
            | none => "") =
          idxs.map (fun c => jsStringOr (row.getD c Cell.null)) := by
        simp [List.map_map]
      rw [hparts]
      rw [ih]
      set parts := idxs.map (fun c => jsStringOr (row.getD c Cell.null)) with hp
      cases hrest : lastKeyOccurrence idxs rest k with
      | some j => simp only []; congr 1; omega
      | none =>
          simp only []
          by_cases hcont : anyKeyContent parts = true
          · by_cases hck : String.intercalate "¦" parts = k
            · have hand : String.intercalate "¦" parts = k ∧ anyKeyContent parts = true :=
                ⟨hck, hcont⟩
              simp [hcont, hand, hck]
            · have hck2 : ¬ (k = String.intercalate "¦" parts) := fun h => hck h.symm
              simp [hcont, hck, hck2]
          · simp [hcont]

/-- Claim C7: buildKeyMap never raises (it is a total function of the
grid): when any designated key column is absent from the header it
returns the empty index, and otherwise it maps each composite key with
key content to the 1-indexed sheet row of its last occurrence among the
data rows — a later duplicate silently overwrites the earlier mapping. -/
theorem buildKeyMap_spec (grid : List Row) (keyColumns : List String) :
    ((∃ col ∈ keyColumns, buildHeaderIndex (sheetHeader grid) col = none) →
      buildKeyMap grid keyColumns = fun _ => none) ∧
    (∀ idxs, resolveKeyIndices (buildHeaderIndex (sheetHeader grid)) keyColumns = some idxs →
      2 ≤ grid.length →
      ∀ k, buildKeyMap grid keyColumns k =
        (lastKeyOccurrence idxs (dataRowsOf grid) k).map (fun j => j + 2)) := by
  constructor
  · intro h
    unfold buildKeyMap
    by_cases hlen : grid.length < 2
    · rw [if_pos hlen]
    · rw [if_neg hlen, resolveKeyIndices_eq_none _ _ h]
  · intro idxs hres hlen k
    unfold buildKeyMap
    rw [if_neg (by omega), hres]
    simp only []
    rw [buildKeyMapRows_eq]
    cases h : lastKeyOccurrence idxs (dataRowsOf grid) k with
    | none => simp
    | some j => simp; omega

/-- Witness for C7: on a grid with data keys A, B, A the composite key A
maps to sheet row 4 (the last occurrence), and a missing key column
yields the empty index. -/
theorem buildKeyMap_spec_witness :
    ((∃ col ∈ ["Missing"], buildHeaderIndex (sheetHeader kmGrid) col = none) ∧
      buildKeyMap kmGrid ["Missing"] "A" = none) ∧
    (resolveKeyIndices (buildHeaderIndex (sheetHeader kmGrid)) ["K"] = some [0] ∧
      2 ≤ kmGrid.length ∧
      buildKeyMap kmGrid ["K"] "A" =
        (lastKeyOccurrence [0] (dataRowsOf kmGrid) "A").map (fun j => j + 2) ∧
      buildKeyMap kmGrid ["K"] "A" = some 4) :=
  ⟨⟨by decide, congrFun ((buildKeyMap_spec kmGrid ["Missing"]).1 (by decide)) "A"⟩,
   ⟨by decide, by decide,
    (buildKeyMap_spec kmGrid ["K"]).2 [0] (by decide) (by decide) "A", by decide⟩⟩

/-! ## upsertLongTable in-batch duplicate behaviour (C3) -/

/-- Claim C3, evaluation at the failing input: a batch holding two rows
with the same new composite key A, upserted into a header-only store.
The source first reserves sheet row 2 for the appended first row and
routes the second row to an in-place update of row 2, but it executes
the update before the appends and then re-reads the last row, so the
first row is appended after the update, at row 3: the store ends with
two physical rows for the key A, the later batch row first and the
earlier one after it, contradicting the no-duplicate in-place claim. -/
theorem upsertLongTable_inBatchDup_eval :
    upsertLongTable ltGrid0 (buildKeyMap ltGrid0 ["K"]) ["K", "V"] [ltRowA1, ltRowA2] ["K"] =
      [[Cell.str "K", Cell.str "V"], ltRowA2, ltRowA1] := by
  decide

/-! ## upsertByKey idempotence failure (C6) -/

/-- Claim C6, evaluation at the failing input: upserting a batch that
writes a column X absent from the store header is not idempotent. The
source appends X to its header-name array but never writes that name
into the header row of the grid, so the second application sees X as
missing again, widens the table by one more column and writes the value
there as well: the two results differ (three columns versus two). -/
theorem upsertByKey_not_idempotent_eval :
    upsertByKey (upsertByKey ubGrid0 "Ticker" ["X"] ubBatch true) "Ticker" ["X"] ubBatch true ≠
      upsertByKey ubGrid0 "Ticker" ["X"] ubBatch true := by
  decide

/-! ## Null propagation in the per-share builder (C9) -/

/-- Claim C9: a failed division — null numerator, null denominator, or a
denominator of exactly zero — propagates through safeDiv and round3 as
null and renders as a blank cell, never as zero; and in the builder each
output cell is its own round3-of-safeDiv expression, so a failure blanks
that cell only (the debt-to-equity and operating-income cells are shown;
the remaining cells are built by the same formula shape). -/
theorem safeDiv_blank_spec :
    (∀ nv dv : Option ℚ, nv = none ∨ dv = none ∨ dv = some 0 →
      safeDiv nv dv = none ∧ round3 (safeDiv nv dv) = none ∧
      renderCell (round3 (safeDiv nv dv)) = Cell.str "" ∧
      ∀ q : ℚ, renderCell (round3 (safeDiv nv dv)) ≠ Cell.num q) ∧
    (∀ (t : String) (y : ℤ) (sh : ℚ) (d : YearData),
      (calculateRowMetrics t y sh d).dte = round3 (safeDiv (debtChain d) (equityChain d)) ∧
      (calculateRowMetrics t y sh d).opPS = round3 (safeDiv d.isOperatingIncome (some sh)) ∧
      (equityChain d = none ∨ equityChain d = some 0 →
        (calculateRowMetrics t y sh d).dte = none)) := by
  have hdiv : ∀ nv dv : Option ℚ, nv = none ∨ dv = none ∨ dv = some 0 → safeDiv nv dv = none := by
    intro nv dv h
    rcases h with rfl | rfl | rfl
    · cases dv <;> rfl
    · cases nv <;> rfl
    · cases nv with
      | none => rfl
      | some n => simp [safeDiv]
  constructor
  · intro nv dv h
    have h1 := hdiv nv dv h
    refine ⟨h1, by rw [h1]; rfl, by rw [h1]; rfl, ?_⟩
    intro q
    rw [h1]
    simp [round3, renderCell]
  · intro t y sh d
    refine ⟨rfl, rfl, ?_⟩
    intro h
    show round3 (safeDiv (debtChain d) (equityChain d)) = none
    rw [hdiv _ _ (Or.inr h)]
    rfl

/-- Witness for C9: a zero denominator and a null equity chain both yield
blank cells. -/
theorem safeDiv_blank_spec_witness :
    ((some (5:ℚ) = none ∨ (some (0:ℚ) : Option ℚ) = none ∨ some (0:ℚ) = some 0) ∧
      renderCell (round3 (safeDiv (some 5) (some 0))) = Cell.str "") ∧
    ((equityChain emptyYearData = none ∨ equityChain emptyYearData = some 0) ∧
      (calculateRowMetrics "T.PSE" 2020 4 emptyYearData).dte = none) :=
  ⟨⟨Or.inr (Or.inr rfl),
    ((safeDiv_blank_spec.1 (some 5) (some 0) (Or.inr (Or.inr rfl))).2.2).1⟩,
   ⟨Or.inl (by decide),
    (safeDiv_blank_spec.2 "T.PSE" 2020 4 emptyYearData).2.2 (Or.inl (by decide))⟩⟩

/-! ## Ticker suffix invariant (C10) -/

theorem jsIncludes_append_self (t sub : String) : jsIncludes (t ++ sub) sub = true := by
  simp only [jsIncludes, decide_eq_true_eq, String.data_append]
  exact (List.suffix_append t.data sub.data).isInfix

theorem normalizeTicker_includes (t : String) :
    jsIncludes (normalizeTicker t) ".PSE" = true := by
  unfold normalizeTicker
  by_cases h : jsIncludes t ".PSE" = true
  · rw [if_pos h]; exact h
  · rw [if_neg h]; exact jsIncludes_append_self t ".PSE"

theorem updateA_map_fst_mem {α : Type} [DecidableEq α] {β : Type}
    (xs : List (α × β)) (key : α) (dflt : β) (f : β → β) :
    ∀ a ∈ (updateA xs key dflt f).map Prod.fst, a ∈ xs.map Prod.fst ∨ a = key := by
  induction xs with
  | nil => intro a ha; simp [updateA] at ha; exact Or.inr ha
  | cons p rest ih =>
      rcases p with ⟨x, b⟩
      intro a ha
      rw [updateA] at ha
      by_cases hk : x = key
      · rw [if_pos hk] at ha
        simp at ha ⊢
        tauto
      · rw [if_neg hk] at ha
        simp at ha ⊢
        rcases ha with rfl | ha2
        · tauto
        · rcases ih a (by simpa using ha2) with h | h
          · simp at h; tauto
          · tauto

theorem indexStep_keys (acc : TickerYearData) (r : LongRow) :
    ∀ a ∈ (indexStep acc r).map Prod.fst,
      a ∈ acc.map Prod.fst ∨ a = normalizeTicker r.ticker := by
  intro a ha
  unfold indexStep at ha
  by_cases h1 : r.ticker = ""
  · rw [if_pos h1] at ha; exact Or.inl ha
  · rw [if_neg h1] at ha
    cases hfy : r.fiscalYear with
    | none => simp only [hfy] at ha; exact Or.inl ha
    | some fy =>
        simp only [hfy] at ha
        by_cases h2 : fy = 0
        · rw [if_pos h2] at ha; exact Or.inl ha
        · rw [if_neg h2] at ha
          exact updateA_map_fst_mem acc (normalizeTicker r.ticker) _ _ a ha

theorem indexByTickerYear_keys_aux (rows : List LongRow) :
    ∀ acc : TickerYearData,
      (∀ a ∈ acc.map Prod.fst, jsIncludes a ".PSE" = true) →
      ∀ a ∈ (rows.foldl indexStep acc).map Prod.fst, jsIncludes a ".PSE" = true := by
  induction rows with
  | nil => intro acc hacc a ha; exact hacc a ha
  | cons r rest ih =>
      intro acc hacc a ha
      refine ih (indexStep acc r) ?_ a ha
      intro b hb
      rcases indexStep_keys acc r b hb with h | rfl
      · exact hacc b h
      · exact normalizeTicker_includes r.ticker

/-- Claim C10: every ticker key produced by the per-share builder carries
the hardcoded ".PSE" exchange marker — the builder appends the literal
".PSE" to any source ticker that does not already contain it and leaves
the others unchanged — so every ticker in the Per_Share output contains
".PSE", and a ticker without it is always renamed. -/
theorem perShare_ticker_suffix (rows : List LongRow) :
    (∀ a ∈ (indexByTickerYear rows).map Prod.fst, jsIncludes a ".PSE" = true) ∧
    (∀ r ∈ calculatePerShareMetrics (indexByTickerYear rows),
      jsIncludes r.ticker ".PSE" = true) ∧
    (∀ t : String, normalizeTicker t = if jsIncludes t ".PSE" then t else t ++ ".PSE") ∧
    (∀ t : String, jsIncludes t ".PSE" = false → normalizeTicker t ≠ t) := by
  have hkeys := indexByTickerYear_keys_aux rows [] (by simp)
  refine ⟨hkeys, ?_, fun t => rfl, ?_⟩
  · intro r hr
    unfold calculatePerShareMetrics at hr
    rw [List.mem_flatMap] at hr
    obtain ⟨t, ht, hr2⟩ := hr
    rw [List.mem_map] at hr2
    obtain ⟨e, _, rfl⟩ := hr2
    have htick : (calculateRowMetrics t e.1 e.2.1 e.2.2).ticker = t := rfl
    rw [htick]
    exact hkeys t ((List.mem_insertionSort _).mp ht)
  · intro t hfalse
    unfold normalizeTicker
    rw [hfalse]
    simp only [Bool.false_eq_true, if_false]
    intro hc
    have hlen := congrArg String.length hc
    rw [String.length_append] at hlen
    have h4 : ".PSE".length = 4 := rfl
    rw [h4] at hlen
    omega

/-- Witness for C10: a concrete long row with ticker ALI produces the key
ALI.PSE, which carries the marker; and the bare ticker AB is renamed. -/
theorem perShare_ticker_suffix_witness :
    ("ALI.PSE" ∈ (indexByTickerYear
        [⟨"ALI", some 2020, "Income_Statement", "Revenue", some 1⟩]).map Prod.fst ∧
      jsIncludes "ALI.PSE" ".PSE" = true) ∧
    (jsIncludes "AB" ".PSE" = false ∧ normalizeTicker "AB" ≠ "AB") :=
  ⟨⟨by decide,
    (perShare_ticker_suffix [⟨"ALI", some 2020, "Income_Statement", "Revenue", some 1⟩]).1
      "ALI.PSE" (by decide)⟩,
   ⟨by decide,
    (perShare_ticker_suffix []).2.2.2 "AB" (by decide)⟩⟩

/-! ## Per-share hard skip rule (C8) -/

theorem jsPos_iff (o : Option ℚ) : jsPos o = true ↔ isPosNum o := by
  cases o <;> simp [jsPos, isPosNum]

theorem getValidShares_eq_zero (d : YearData)
    (h1 : ¬ isPosNum d.isSharesDiluted) (h2 : ¬ isPosNum d.bsSharesDiluted) :
    getValidShares d = 0 := by
  have e1 : jsPos d.isSharesDiluted = false := by
    rw [Bool.eq_false_iff]
    exact fun hc => h1 ((jsPos_iff _).1 hc)
  have e2 : jsPos d.bsSharesDiluted = false := by
    rw [Bool.eq_false_iff]
    exact fun hc => h2 ((jsPos_iff _).1 hc)
  simp [getValidShares, e1, e2]

theorem lookup_mem {α : Type} [DecidableEq α] {β : Type} {l : List (α × β)} {k : α} {v : β}
    (h : l.lookup k = some v) : (k, v) ∈ l := by
  induction l with
  | nil => simp [List.lookup] at h
  | cons p rest ih =>
      rcases p with ⟨a, b⟩
      rw [List.lookup] at h
      by_cases hk : k = a
      · simp [hk] at h
        subst hk
        subst h
        exact List.mem_cons_self _ _
      · have hne : (k == a) = false := beq_false_of_ne hk
        rw [hne] at h
        exact List.mem_cons_of_mem _ (ih h)

theorem pickLoop_mem (lst : List (ℤ × YearData)) :
    ∀ (acc : List (ℤ × ℚ × YearData)) (x), x ∈ pickLoop lst acc →
      x ∈ acc ∨ ∃ p ∈ lst, x = (p.1, getValidShares p.2, p.2) ∧ 0 < getValidShares p.2 := by
  induction lst with
  | nil => intro acc x h; rw [pickLoop] at h; exact Or.inl h
  | cons hd rest ih =>
      rcases hd with ⟨y, d⟩
      intro acc x h
      rw [pickLoop] at h
      by_cases hs : 0 < getValidShares d
      · rw [if_pos hs] at h
        have hsplit : x ∈ acc ++ [(y, getValidShares d, d)] →
            x ∈ acc ∨ ∃ p ∈ (y, d) :: rest,
              x = (p.1, getValidShares p.2, p.2) ∧ 0 < getValidShares p.2 := by
          intro hx
          rcases List.mem_append.mp hx with hx1 | hx2
          · exact Or.inl hx1
          · refine Or.inr ⟨(y, d), List.mem_cons_self _ _, ?_, hs⟩
            simpa using hx2
        by_cases hlen : 10 ≤ (acc ++ [(y, getValidShares d, d)]).length
        · rw [if_pos hlen] at h
          exact hsplit h
        · rw [if_neg hlen] at h
          rcases ih _ x h with h1 | ⟨p, hp, he, hpos⟩
          · exact hsplit h1
          · exact Or.inr ⟨p, List.mem_cons_of_mem _ hp, he, hpos⟩
      · rw [if_neg hs] at h
        by_cases hlen : 10 ≤ acc.length
        · rw [if_pos hlen] at h
          exact Or.inl h
        · rw [if_neg hlen] at h
          rcases ih _ x h with h1 | ⟨p, hp, he, hpos⟩
          · exact Or.inl h1
          · exact Or.inr ⟨p, List.mem_cons_of_mem _ hp, he, hpos⟩

/-- Every output row of the per-share builder comes from a ticker key of
the data, a year of that ticker, and a positive valid share count for
the looked-up bucket. -/
theorem mem_calcPerShare_decomp (data : TickerYearData) (r : PerShareRow)
    (h : r ∈ calculatePerShareMetrics data) :
    ∃ t y, r.ticker = t ∧ r.fiscalYear = y ∧ t ∈ data.map Prod.fst ∧
      0 < getValidShares ((((data.lookup t).getD []).lookup y).getD emptyYearData) := by
  unfold calculatePerShareMetrics at h
  rw [List.mem_flatMap] at h
  obtain ⟨t, ht, hr⟩ := h
  rw [List.mem_map] at hr
  obtain ⟨e, he, rfl⟩ := hr
  have he2 := (List.mem_insertionSort _).mp he
  rcases pickLoop_mem _ _ _ he2 with h0 | ⟨p, hp, heq, hpos⟩
  · simp at h0
  · rw [List.mem_map] at hp
    obtain ⟨y, _, rfl⟩ := hp
    subst heq
    exact ⟨t, y, rfl, rfl, (List.mem_insertionSort _).mp ht, hpos⟩

/-- Claim C8: a ticker/year whose diluted share count is not a positive
number in the income-statement bucket and also not in the balance-sheet
bucket produces no row in the per-share output — a hard skip, not a
zero-fill. -/
theorem perShare_skip_rule (data : TickerYearData) (t : String) (y : ℤ)
    (hinv : ∀ ys d, (t, ys) ∈ data → (y, d) ∈ ys →
      ¬ isPosNum d.isSharesDiluted ∧ ¬ isPosNum d.bsSharesDiluted) :
    ∀ r ∈ calculatePerShareMetrics data, ¬ (r.ticker = t ∧ r.fiscalYear = y) := by
  intro r hr ⟨hticker, hyear⟩
  obtain ⟨t2, y2, ht2, hy2, _, hpos⟩ := mem_calcPerShare_decomp data r hr
  have ht : t2 = t := by rw [← hticker, ht2]
  have hy : y2 = y := by rw [← hyear, hy2]
  subst ht hy
  have hempty : getValidShares emptyYearData = 0 := rfl
  cases hlt : data.lookup t2 with
  | none =>
      rw [hlt] at hpos
      simp only [Option.getD_none, List.lookup_nil, hempty] at hpos
      exact lt_irrefl 0 hpos
  | some ys =>
      rw [hlt] at hpos
      simp only [Option.getD_some] at hpos
      cases hly : ys.lookup y2 with
      | none =>
          rw [hly] at hpos
          simp only [Option.getD_some, Option.getD_none, hempty] at hpos
          exact lt_irrefl 0 hpos
      | some d =>
          rw [hly] at hpos
          simp only [Option.getD_some] at hpos
          have hmem1 : (t2, ys) ∈ data := lookup_mem hlt
          have hmem2 : (y2, d) ∈ ys := lookup_mem hly
          obtain ⟨h1, h2⟩ := hinv ys d hmem1 hmem2
          rw [getValidShares_eq_zero d h1 h2] at hpos
          exact lt_irrefl 0 hpos

/-- Witness for C8: with ticker X carrying only an invalid-shares year,
the builder output (which does contain a row for Y.PSE) has no row for
(X, 2020). -/
theorem perShare_skip_rule_witness :
    (¬ isPosNum psBadData.isSharesDiluted ∧ ¬ isPosNum psBadData.bsSharesDiluted) ∧
    (calculateRowMetrics "Y.PSE" 2020 5 psGoodData ∈ calculatePerShareMetrics psData2 ∧
      ¬ ((calculateRowMetrics "Y.PSE" 2020 5 psGoodData).ticker = "X" ∧
        (calculateRowMetrics "Y.PSE" 2020 5 psGoodData).fiscalYear = 2020)) :=
  ⟨⟨by decide, by decide⟩,
   ⟨List.mem_cons_self _ _,
    perShare_skip_rule psData2 "X" 2020
      (by
        intro ys d h1 h2
        simp [psData2] at h1
        subst h1
        simp at h2
        subst h2
        exact ⟨by decide, by decide⟩)
      _ (List.mem_cons_self _ _)⟩⟩

/-! ## Upsert preservation (C5) -/


theorem cellAt_eq (g : List Row) (i c : ℕ) :
    cellAt g i c = (g[i]?.getD [])[c]?.getD (Cell.str "") := by
  unfold cellAt
  rw [List.getD_eq_getElem?_getD, List.getD_eq_getElem?_getD]

theorem cellAt_set_outer_ne (g : List Row) (r : ℕ) (row : Row) (i c : ℕ) (h : i ≠ r) :
    cellAt (g.set r row) i c = cellAt g i c := by
  simp only [cellAt_eq]
  rw [List.getElem?_set_ne (fun he => h he.symm)]

theorem cellAt_write_ne (g : List Row) (r cIdx : ℕ) (v : Cell) (i c : ℕ)
    (h : i ≠ r ∨ c ≠ cIdx) :
    cellAt (g.set r ((g.getD r []).set cIdx v)) i c = cellAt g i c := by
  rcases h with h | h
  · exact cellAt_set_outer_ne g r _ i c h
  · by_cases hi : i = r
    · subst hi
      simp only [cellAt_eq]
      by_cases hlen : i < g.length
      · rw [List.getElem?_set_self (by simpa using hlen)]
        simp only [Option.getD_some]
        rw [List.getD_eq_getElem?_getD, List.getElem?_set_ne (fun he => h he.symm)]
      · rw [List.set_eq_of_length_le (by omega)]
    · exact cellAt_set_outer_ne g r _ i c hi

theorem cellAt_write_self (g : List Row) (r cIdx : ℕ) (v : Cell)
    (hr : r < g.length) (hc : cIdx < (g.getD r []).length) :
    cellAt (g.set r ((g.getD r []).set cIdx v)) r cIdx = v := by
  simp only [cellAt_eq]
  rw [List.getElem?_set_self hr]
  simp only [Option.getD_some]
  rw [List.getElem?_set_self (by simpa using hc)]
  rfl

theorem cellAt_append_lt (g : List Row) (row : Row) (i c : ℕ) (h : i < g.length) :
    cellAt (g ++ [row]) i c = cellAt g i c := by
  simp only [cellAt_eq]
  rw [List.getElem?_append, if_pos h]

theorem cellAt_append_self (g : List Row) (row : Row) (c : ℕ) :
    cellAt (g ++ [row]) g.length c = row.getD c (Cell.str "") := by
  simp only [cellAt_eq]
  rw [List.getElem?_concat_length]
  simp only [Option.getD_some]
  rw [← List.getD_eq_getElem?_getD]

theorem getD_padTo (r : Row) (n c : ℕ) :
    (padTo r n).getD c (Cell.str "") = r.getD c (Cell.str "") := by
  simp only [padTo, List.getD_eq_getElem?_getD, List.getElem?_append, List.getElem?_replicate]
  by_cases h : c < r.length
  · rw [if_pos h]
  · rw [if_neg h, List.getElem?_eq_none (by omega)]
    by_cases h2 : c - r.length < n - r.length <;> simp [h2]

theorem length_padTo (r : Row) (n : ℕ) : (padTo r n).length = max r.length n := by
  unfold padTo
  rw [List.length_append, List.length_replicate]
  omega


theorem bhi_fold_spec (headers : List String) :
    ∀ (n : ℕ) (acc : Option ℕ) (name : String),
      (headers.foldl (fun st h =>
          (st.1 + 1, if jsTrim h = name then some st.1 else st.2)) (n, acc)).2 = acc ∨
      ∃ j, j < headers.length ∧
        (headers.foldl (fun st h =>
          (st.1 + 1, if jsTrim h = name then some st.1 else st.2)) (n, acc)).2 = some (n + j) ∧
        jsTrim (headers.getD j "") = name := by
  induction headers with
  | nil => intro n acc name; exact Or.inl rfl
  | cons h rest ih =>
      intro n acc name
      rw [List.foldl_cons]
      by_cases hh : jsTrim h = name
      · rw [if_pos hh]
        rcases ih (n + 1) (some n) name with h1 | ⟨j, hj, he, hname⟩
        · refine Or.inr ⟨0, by simp, ?_, by simpa using hh⟩
          rw [h1]
          congr 1
        · exact Or.inr ⟨j + 1, by simp; omega, by rw [he]; congr 1; omega,
            by simpa using hname⟩
      · rw [if_neg hh]
        rcases ih (n + 1) acc name with h1 | ⟨j, hj, he, hname⟩
        · exact Or.inl h1
        · exact Or.inr ⟨j + 1, by simp; omega, by rw [he]; congr 1; omega,
            by simpa using hname⟩

theorem buildHeaderIndex_spec (headers : List String) (name : String) (i : ℕ)
    (h : buildHeaderIndex headers name = some i) :
    i < headers.length ∧ jsTrim (headers.getD i "") = name := by
  unfold buildHeaderIndex at h
  rcases bhi_fold_spec headers 0 none name with h1 | ⟨j, hj, he, hname⟩
  · rw [h1] at h; exact absurd h (by simp)
  · rw [he] at h
    have hji : j = i := by
      have := Option.some.inj h
      omega
    subst hji
    exact ⟨hj, hname⟩


theorem HWF_init (header0 : List String) :
    HWF ⟨header0, Screener.buildHeaderIndex header0⟩ := by
  constructor
  · intro s i h
    exact (buildHeaderIndex_spec header0 s i h).1
  · intro s1 s2 i h1 h2
    have e1 := (buildHeaderIndex_spec header0 s1 i h1).2
    have e2 := (buildHeaderIndex_spec header0 s2 i h2).2
    rw [← e1, ← e2]

theorem ensureCol_preserve (st : HeaderSt) (c s : String) (i : ℕ) (h : st.hidx s = some i) :
    (ensureCol st c).hidx s = some i := by
  unfold ensureCol
  by_cases hc : (st.hidx c).isSome
  · rw [if_pos hc]; exact h
  · rw [if_neg hc]
    simp only []
    by_cases hs : s = c
    · subst hs
      rw [h] at hc
      simp at hc
    · rw [if_neg hs]; exact h

theorem ensureCol_isSome_self (st : HeaderSt) (c : String) :
    ((ensureCol st c).hidx c).isSome := by
  unfold ensureCol
  by_cases hc : (st.hidx c).isSome
  · rw [if_pos hc]; exact hc
  · rw [if_neg hc]
    simp

theorem HWF_ensureCol (st : HeaderSt) (c : String) (h : HWF st) : HWF (ensureCol st c) := by
  obtain ⟨hb, hinj⟩ := h
  unfold ensureCol
  by_cases hc : (st.hidx c).isSome
  · rw [if_pos hc]; exact ⟨hb, hinj⟩
  · rw [if_neg hc]
    constructor
    · intro s i hsi
      simp only [] at hsi
      rw [List.length_append]
      by_cases hs : s = c
      · rw [if_pos hs] at hsi
        have := Option.some.inj hsi
        simp
        omega
      · rw [if_neg hs] at hsi
        have := hb s i hsi
        simp
        omega
    · intro s1 s2 i h1 h2
      simp only [] at h1 h2
      by_cases hs1 : s1 = c
      · rw [if_pos hs1] at h1
        by_cases hs2 : s2 = c
        · rw [hs1, hs2]
        · rw [if_neg hs2] at h2
          have hbound := hb s2 i h2
          have := Option.some.inj h1
          omega
      · rw [if_neg hs1] at h1
        by_cases hs2 : s2 = c
        · rw [if_pos hs2] at h2
          have hbound := hb s1 i h1
          have := Option.some.inj h2
          omega
        · rw [if_neg hs2] at h2
          exact hinj s1 s2 i h1 h2

theorem HWF_foldl_ensureCol (cols : List String) :
    ∀ st : HeaderSt, HWF st → HWF (cols.foldl ensureCol st) := by
  induction cols with
  | nil => intro st h; exact h
  | cons c rest ih => intro st h; exact ih (ensureCol st c) (HWF_ensureCol st c h)

theorem foldl_ensureCol_preserve (cols : List String) :
    ∀ (st : HeaderSt) (s : String) (i : ℕ), st.hidx s = some i →
      (cols.foldl ensureCol st).hidx s = some i := by
  induction cols with
  | nil => intro st s i h; exact h
  | cons c rest ih => intro st s i h; exact ih _ s i (ensureCol_preserve st c s i h)

theorem upsertHeaderSt_HWF (grid : List Row) (keyColumn : String) (W : List String) (amc : Bool) :
    HWF (upsertHeaderSt grid keyColumn W amc) := by
  unfold upsertHeaderSt
  by_cases h : amc = true
  · rw [if_pos h]
    exact HWF_foldl_ensureCol _ _ (HWF_ensureCol _ _ (HWF_init _))
  · rw [if_neg h]
    exact HWF_ensureCol _ _ (HWF_init _)

theorem upsertHeaderSt_key_isSome (grid : List Row) (keyColumn : String) (W : List String)
    (amc : Bool) : ∃ kIdx, (upsertHeaderSt grid keyColumn W amc).hidx keyColumn = some kIdx := by
  unfold upsertHeaderSt
  have h1 := ensureCol_isSome_self ⟨sheetHeader grid, buildHeaderIndex (sheetHeader grid)⟩ keyColumn
  obtain ⟨kIdx, hk⟩ := Option.isSome_iff_exists.mp h1
  by_cases h : amc = true
  · rw [if_pos h]
    exact ⟨kIdx, foldl_ensureCol_preserve _ _ _ _ hk⟩
  · rw [if_neg h]
    exact ⟨kIdx, hk⟩


theorem keyColumn_mem_effectiveCols (keyColumn : String) (W : List String) :
    keyColumn ∈ effectiveCols keyColumn W := by
  unfold effectiveCols
  by_cases h : keyColumn ∈ W
  · rw [if_pos h]; exact h
  · rw [if_neg h]; exact List.mem_cons_self _ _

theorem writeCell_length (st : HeaderSt) (obj : RowObj) (rowIdx : ℕ) (d : List Row)
    (col : String) : (writeCell st obj rowIdx d col).length = d.length := by
  unfold writeCell
  cases st.hidx col with
  | none => rfl
  | some cIdx =>
      cases objGet obj col with
      | none => rfl
      | some v => exact List.length_set d rowIdx _

theorem writeCols_length (st : HeaderSt) (obj : RowObj) (rowIdx : ℕ) (cols : List String) :
    ∀ d : List Row, (writeCols st obj rowIdx cols d).length = d.length := by
  induction cols with
  | nil => intro d; rfl
  | cons col rest ih =>
      intro d
      show (writeCols st obj rowIdx rest (writeCell st obj rowIdx d col)).length = d.length
      rw [ih, writeCell_length]

theorem writeCell_rowLen (st : HeaderSt) (obj : RowObj) (rowIdx : ℕ) (d : List Row)
    (col : String) (i : ℕ) :
    ((writeCell st obj rowIdx d col).getD i []).length = (d.getD i []).length := by
  unfold writeCell
  cases st.hidx col with
  | none => rfl
  | some cIdx =>
      cases objGet obj col with
      | none => rfl
      | some v =>
          simp only []
          by_cases hi : i = rowIdx
          · subst hi
            by_cases hlen : i < d.length
            · rw [List.getD_eq_getElem?_getD (d.set i _), List.getElem?_set_self hlen]
              simp only [Option.getD_some]
              rw [List.length_set, List.getD_eq_getElem?_getD]
            · rw [List.set_eq_of_length_le (by omega)]
          · rw [List.getD_eq_getElem?_getD (d.set rowIdx _),
              List.getElem?_set_ne (fun he => hi he.symm), ← List.getD_eq_getElem?_getD]

theorem writeCols_rowLen (st : HeaderSt) (obj : RowObj) (rowIdx : ℕ) (cols : List String) :
    ∀ (d : List Row) (i : ℕ),
      ((writeCols st obj rowIdx cols d).getD i []).length = (d.getD i []).length := by
  induction cols with
  | nil => intro d i; rfl
  | cons col rest ih =>
      intro d i
      show ((writeCols st obj rowIdx rest (writeCell st obj rowIdx d col)).getD i []).length = _
      rw [ih, writeCell_rowLen]

theorem writeCols_cellAt_other_row (st : HeaderSt) (obj : RowObj) (rowIdx : ℕ)
    (cols : List String) :
    ∀ (d : List Row) (i c : ℕ), i ≠ rowIdx →
      cellAt (writeCols st obj rowIdx cols d) i c = cellAt d i c := by
  induction cols with
  | nil => intro d i c _; rfl
  | cons col rest ih =>
      intro d i c hi
      show cellAt (writeCols st obj rowIdx rest (writeCell st obj rowIdx d col)) i c = _
      rw [ih _ i c hi]
      unfold writeCell
      cases st.hidx col with
      | none => rfl
      | some cIdx =>
          cases objGet obj col with
          | none => rfl
          | some v => exact cellAt_write_ne d rowIdx cIdx _ i c (Or.inl hi)

theorem writeCols_cellAt_unwritten (st : HeaderSt) (obj : RowObj) (rowIdx : ℕ)
    (cols : List String) :
    ∀ (d : List Row) (i c : ℕ), (∀ col ∈ cols, st.hidx col ≠ some c) →
      cellAt (writeCols st obj rowIdx cols d) i c = cellAt d i c := by
  induction cols with
  | nil => intro d i c _; rfl
  | cons col rest ih =>
      intro d i c hc
      show cellAt (writeCols st obj rowIdx rest (writeCell st obj rowIdx d col)) i c = _
      rw [ih _ i c (fun col2 h2 => hc col2 (List.mem_cons_of_mem _ h2))]
      unfold writeCell
      cases hcol : st.hidx col with
      | none => rfl
      | some cIdx =>
          cases objGet obj col with
          | none => rfl
          | some v =>
              refine cellAt_write_ne d rowIdx cIdx _ i c (Or.inr ?_)
              intro hcc
              exact hc col (List.mem_cons_self _ _) (by rw [hcol, hcc])

theorem writeCols_cellAt_key (st : HeaderSt) (obj : RowObj) (rowIdx : ℕ)
    (keyColumn : String) (kIdx : ℕ) (hwf : HWF st) (hkey : st.hidx keyColumn = some kIdx)
    (cols : List String) :
    ∀ d : List Row, rowIdx < d.length → kIdx < (d.getD rowIdx []).length →
      cellAt (writeCols st obj rowIdx cols d) rowIdx kIdx = cellAt d rowIdx kIdx ∨
      ∃ v, objGet obj keyColumn = some v ∧
        cellAt (writeCols st obj rowIdx cols d) rowIdx kIdx = nullToEmpty v := by
  induction cols with
  | nil => intro d _ _; exact Or.inl rfl
  | cons col rest ih =>
      intro d hlen hwid
      have hfold : writeCols st obj rowIdx (col :: rest) d =
          writeCols st obj rowIdx rest (writeCell st obj rowIdx d col) := rfl
      rw [hfold]
      have hlen2 : rowIdx < (writeCell st obj rowIdx d col).length := by
        rw [writeCell_length]; exact hlen
      have hwid2 : kIdx < ((writeCell st obj rowIdx d col).getD rowIdx []).length := by
        rw [writeCell_rowLen]; exact hwid
      rcases ih (writeCell st obj rowIdx d col) hlen2 hwid2 with h1 | h2
      · rw [h1]
        unfold writeCell
        cases hcol : st.hidx col with
        | none => exact Or.inl rfl
        | some cIdx =>
            cases ho : objGet obj col with
            | none => exact Or.inl rfl
            | some v =>
                simp only []
                by_cases hck : cIdx = kIdx
                · subst hck
                  have hcoleq : col = keyColumn := hwf.2 col keyColumn cIdx hcol hkey
                  subst hcoleq
                  exact Or.inr ⟨v, ho, cellAt_write_self d rowIdx cIdx _ hlen hwid⟩
                · exact Or.inl (cellAt_write_ne d rowIdx cIdx _ rowIdx kIdx
                    (Or.inr (fun he2 => hck he2.symm)))
      · exact Or.inr h2


theorem jsTrim_empty : jsTrim "" = "" := rfl

theorem nullToEmpty_ne_blank (c : Cell) (h : jsTrim (jsStringOr c) ≠ "") :
    nullToEmpty c ≠ Cell.str "" := by
  intro he
  cases c with
  | null => exact h rfl
  | str s =>
      have hs : s = "" := Screener.Cell.str.inj he
      subst hs
      exact h rfl
  | num q => exact Screener.Cell.noConfusion he
  | bool b => exact Screener.Cell.noConfusion he

theorem newRow_getD_ne (L kIdx c : ℕ) (key : String) (h : c ≠ kIdx) :
    ((List.replicate L (Cell.str "")).set kIdx (Cell.str key)).getD c (Cell.str "") =
      Cell.str "" := by
  rw [List.getD_eq_getElem?_getD, List.getElem?_set_ne (fun he => h he.symm),
    List.getElem?_replicate]
  by_cases hc : c < L <;> simp [hc]

theorem newRow_getD_key (L kIdx : ℕ) (key : String) (h : kIdx < L) :
    ((List.replicate L (Cell.str "")).set kIdx (Cell.str key)).getD kIdx (Cell.str "") =
      Cell.str key := by
  rw [List.getD_eq_getElem?_getD, List.getElem?_set_self (by simpa using h)]
  rfl

theorem newRow_length (L kIdx : ℕ) (key : String) :
    ((List.replicate L (Cell.str "")).set kIdx (Cell.str key)).length = L := by
  rw [List.length_set, List.length_replicate]

theorem cellAt_map_padTo (g : List Row) (L i c : ℕ) :
    cellAt (g.map (fun r => padTo r L)) i c = cellAt g i c := by
  simp only [cellAt_eq, List.getElem?_map]
  cases hg : g[i]? with
  | none => rfl
  | some row =>
      simp only [Option.map_some']
      simp only [Option.getD_some]
      rw [← List.getD_eq_getElem?_getD, ← List.getD_eq_getElem?_getD, getD_padTo]

theorem data0_getD (g : List Row) (L i : ℕ) (h : i < g.length) :
    (g.map (fun r => padTo r L)).getD i [] = padTo (g.getD i []) L := by
  rw [List.getD_eq_getElem?_getD, List.getElem?_map]
  rw [List.getElem?_eq_getElem h]
  simp only [Option.map_some', Option.getD_some]
  rw [List.getD_eq_getElem?_getD, List.getElem?_eq_getElem h]
  rfl

theorem initRowByKey_lt (data : List Row) (kIdx : ℕ) (k : String) (r : ℕ)
    (h : initRowByKey data kIdx k = some r) : r < data.length := by
  unfold initRowByKey at h
  by_cases hk : k = ""
  · rw [if_pos hk] at h; exact absurd h (by simp)
  · rw [if_neg hk] at h
    have hmem := List.mem_of_mem_getLast? h
    rw [List.mem_filter] at hmem
    exact List.mem_range.mp hmem.1


theorem upsertStep_eq_skip (st : HeaderSt) (kIdx : ℕ) (keyColumn : String) (cols : List String)
    (s : List Row × (String → Option ℕ)) (obj : RowObj)
    (h : jsTrim (jsStringOr ((objGet obj keyColumn).getD Cell.null)) = "") :
    upsertStep st kIdx keyColumn cols s obj = s := by
  unfold upsertStep
  rw [if_pos h]

theorem upsertStep_eq_update (st : HeaderSt) (kIdx : ℕ) (keyColumn : String) (cols : List String)
    (s : List Row × (String → Option ℕ)) (obj : RowObj) (r : ℕ)
    (h : jsTrim (jsStringOr ((objGet obj keyColumn).getD Cell.null)) ≠ "")
    (hf : s.2 (jsTrim (jsStringOr ((objGet obj keyColumn).getD Cell.null))) = some r) :
    upsertStep st kIdx keyColumn cols s obj = (writeCols st obj r cols s.1, s.2) := by
  unfold upsertStep
  rw [if_neg h]
  simp only [hf]
  rfl

theorem upsertStep_eq_append (st : HeaderSt) (kIdx : ℕ) (keyColumn : String) (cols : List String)
    (s : List Row × (String → Option ℕ)) (obj : RowObj)
    (h : jsTrim (jsStringOr ((objGet obj keyColumn).getD Cell.null)) ≠ "")
    (hf : s.2 (jsTrim (jsStringOr ((objGet obj keyColumn).getD Cell.null))) = none) :
    upsertStep st kIdx keyColumn cols s obj =
      (writeCols st obj s.1.length cols
        (s.1 ++ [(List.replicate st.header.length (Cell.str "")).set kIdx
          (Cell.str (jsTrim (jsStringOr ((objGet obj keyColumn).getD Cell.null))))]),
       fun k => if k = jsTrim (jsStringOr ((objGet obj keyColumn).getD Cell.null))
         then some s.1.length else s.2 k) := by
  unfold upsertStep
  rw [if_neg h]
  simp only [hf]
  rfl


theorem upsertStep_inv
    (st : HeaderSt) (keyColumn : String) (cols : List String) (kIdx : ℕ)
    (hwf : HWF st) (hkey : st.hidx keyColumn = some kIdx)
    (hkmem : keyColumn ∈ cols) (hkb : kIdx < st.header.length)
    (origLen : ℕ) (data0 : List Row)
    (s : List Row × (String → Option ℕ)) (obj : RowObj)
    (hinv : UpsertInv origLen st.header.length (unwritten st cols) kIdx data0 s) :
    UpsertInv origLen st.header.length (unwritten st cols) kIdx data0
      (upsertStep st kIdx keyColumn cols s obj) := by
  obtain ⟨inv1, inv2, inv3, inv4, inv5⟩ := hinv
  by_cases hkempty : jsTrim (jsStringOr ((objGet obj keyColumn).getD Cell.null)) = ""
  · rw [upsertStep_eq_skip st kIdx keyColumn cols s obj hkempty]
    exact ⟨inv1, inv2, inv3, inv4, inv5⟩
  · have hnb : ∀ v, objGet obj keyColumn = some v → nullToEmpty v ≠ Cell.str "" := by
      intro v hv
      refine nullToEmpty_ne_blank v ?_
      rw [hv] at hkempty
      exact hkempty
    cases hfound : s.2 (jsTrim (jsStringOr ((objGet obj keyColumn).getD Cell.null))) with
    | some r =>
        rw [upsertStep_eq_update st kIdx keyColumn cols s obj r hkempty hfound]
        have hr : r < s.1.length := inv4 _ r hfound
        have hwidr : kIdx < (s.1.getD r []).length := lt_of_lt_of_le hkb (inv5 r hr)
        refine ⟨?_, ?_, ?_, ?_, ?_⟩
        · show origLen ≤ (writeCols st obj r cols s.1).length
          rw [writeCols_length]
          exact inv1
        · intro i hi c hc
          show cellAt (writeCols st obj r cols s.1) i c = cellAt data0 i c
          rw [writeCols_cellAt_unwritten st obj r cols s.1 i c hc]
          exact inv2 i hi c hc
        · intro j hj1 hj2
          show (∀ c, unwritten st cols c →
              cellAt (writeCols st obj r cols s.1) j c = Cell.str "") ∧
            cellAt (writeCols st obj r cols s.1) j kIdx ≠ Cell.str ""
          rw [show (writeCols st obj r cols s.1, s.2).1 = writeCols st obj r cols s.1 from rfl]
            at hj2
          rw [writeCols_length] at hj2
          constructor
          · intro c hc
            rw [writeCols_cellAt_unwritten st obj r cols s.1 j c hc]
            exact (inv3 j hj1 hj2).1 c hc
          · by_cases hjr : j = r
            · subst hjr
              rcases writeCols_cellAt_key st obj j keyColumn kIdx hwf hkey cols s.1 hr hwidr
                with h1 | ⟨v, hv, he⟩
              · rw [h1]
                exact (inv3 j hj1 hj2).2
              · rw [he]
                exact hnb v hv
            · rw [writeCols_cellAt_other_row st obj r cols s.1 j kIdx hjr]
              exact (inv3 j hj1 hj2).2
        · intro k r2 hk
          show r2 < (writeCols st obj r cols s.1).length
          rw [writeCols_length]
          exact inv4 k r2 hk
        · intro i hi
          show st.header.length ≤ ((writeCols st obj r cols s.1).getD i []).length
          rw [show (writeCols st obj r cols s.1, s.2).1 = writeCols st obj r cols s.1 from rfl]
            at hi
          rw [writeCols_length] at hi
          rw [writeCols_rowLen]
          exact inv5 i hi
    | none =>
        rw [upsertStep_eq_append st kIdx keyColumn cols s obj hkempty hfound]
        set key := jsTrim (jsStringOr ((objGet obj keyColumn).getD Cell.null)) with hkeydef
        set newRow := (List.replicate st.header.length (Cell.str "")).set kIdx (Cell.str key)
          with hnewdef
        set data1 := s.1 ++ [newRow] with hdata1
        have hlen1 : data1.length = s.1.length + 1 := by
          rw [hdata1, List.length_append, List.length_singleton]
        have hrowIdx : s.1.length < data1.length := by omega
        have hgetrow : data1.getD s.1.length [] = newRow := by
          rw [hdata1, List.getD_eq_getElem?_getD, List.getElem?_concat_length]
          rfl
        have hwidn : kIdx < (data1.getD s.1.length []).length := by
          rw [hgetrow, hnewdef, newRow_length]
          exact hkb
        have hgleft : ∀ i, i < s.1.length → data1.getD i [] = s.1.getD i [] := by
          intro i hi
          rw [hdata1, List.getD_eq_getElem?_getD, List.getElem?_append, if_pos hi,
            ← List.getD_eq_getElem?_getD]
        refine ⟨?_, ?_, ?_, ?_, ?_⟩
        · show origLen ≤ (writeCols st obj s.1.length cols data1).length
          rw [writeCols_length]
          omega
        · intro i hi c hc
          show cellAt (writeCols st obj s.1.length cols data1) i c = cellAt data0 i c
          rw [writeCols_cellAt_unwritten st obj s.1.length cols data1 i c hc]
          rw [hdata1, cellAt_append_lt _ _ _ _ (by omega)]
          exact inv2 i hi c hc
        · intro j hj1 hj2
          show (∀ c, unwritten st cols c →
              cellAt (writeCols st obj s.1.length cols data1) j c = Cell.str "") ∧
            cellAt (writeCols st obj s.1.length cols data1) j kIdx ≠ Cell.str ""
          rw [show (writeCols st obj s.1.length cols data1,
              fun k => if k = key then some s.1.length else s.2 k).1 =
              writeCols st obj s.1.length cols data1 from rfl] at hj2
          rw [writeCols_length] at hj2
          rw [hlen1] at hj2
          have hkc : kIdx < st.header.length := hkb
          constructor
          · intro c hc
            rw [writeCols_cellAt_unwritten st obj s.1.length cols data1 j c hc]
            have hckey : c ≠ kIdx := by
              intro hcc
              exact hc keyColumn hkmem (by rw [hkey, hcc])
            by_cases hjl : j < s.1.length
            · rw [hdata1, cellAt_append_lt _ _ _ _ hjl]
              exact (inv3 j hj1 hjl).1 c hc
            · have hje : j = s.1.length := by omega
              subst hje
              rw [hdata1, cellAt_append_self]
              rw [hnewdef]
              exact newRow_getD_ne st.header.length kIdx c key (fun he => hckey he)
          · by_cases hjl : j < s.1.length
            · rw [writeCols_cellAt_other_row st obj s.1.length cols data1 j kIdx (by omega)]
              rw [hdata1, cellAt_append_lt _ _ _ _ hjl]
              exact (inv3 j hj1 hjl).2
            · have hje : j = s.1.length := by omega
              subst hje
              rcases writeCols_cellAt_key st obj s.1.length keyColumn kIdx hwf hkey cols data1
                  (by omega) hwidn with h1 | ⟨v, hv, he⟩
              · rw [h1]
                have : cellAt data1 s.1.length kIdx = Cell.str key := by
                  unfold cellAt
                  rw [hgetrow, hnewdef, newRow_getD_key _ _ _ hkb]
                rw [this]
                intro hc
                exact hkempty (Screener.Cell.str.inj hc)
              · rw [he]
                exact hnb v hv
        · intro k r2 hk
          show r2 < (writeCols st obj s.1.length cols data1).length
          rw [writeCols_length, hlen1]
          have hk2 : (if k = key then some s.1.length else s.2 k) = some r2 := hk
          by_cases hkk : k = key
          · rw [if_pos hkk] at hk2
            have := Option.some.inj hk2
            omega
          · rw [if_neg hkk] at hk2
            have := inv4 k r2 hk2
            omega
        · intro i hi
          show st.header.length ≤ ((writeCols st obj s.1.length cols data1).getD i []).length
          rw [show (writeCols st obj s.1.length cols data1,
              fun k => if k = key then some s.1.length else s.2 k).1 =
              writeCols st obj s.1.length cols data1 from rfl] at hi
          rw [writeCols_length, hlen1] at hi
          rw [writeCols_rowLen]
          by_cases hil : i < s.1.length
          · rw [hgleft i hil]
            exact inv5 i hil
          · have hie : i = s.1.length := by omega
            subst hie
            rw [hgetrow, hnewdef, newRow_length]


theorem upsertFold_inv
    (st : HeaderSt) (keyColumn : String) (cols : List String) (kIdx : ℕ)
    (hwf : HWF st) (hkey : st.hidx keyColumn = some kIdx)
    (hkmem : keyColumn ∈ cols) (hkb : kIdx < st.header.length)
    (origLen : ℕ) (data0 : List Row) (incoming : List RowObj) :
    ∀ s, UpsertInv origLen st.header.length (unwritten st cols) kIdx data0 s →
      UpsertInv origLen st.header.length (unwritten st cols) kIdx data0
        (incoming.foldl (upsertStep st kIdx keyColumn cols) s) := by
  induction incoming with
  | nil => intro s h; exact h
  | cons obj rest ih =>
      intro s h
      exact ih _ (upsertStep_inv st keyColumn cols kIdx hwf hkey hkmem hkb origLen data0 s obj h)

theorem upsert_initial_inv (grid : List Row) (cols : List String)
    (kIdx : ℕ) (st : HeaderSt) :
    UpsertInv grid.length st.header.length (unwritten st cols) kIdx
      (grid.map (fun r => padTo r st.header.length))
      (grid.map (fun r => padTo r st.header.length),
       initRowByKey (grid.map (fun r => padTo r st.header.length)) kIdx) := by
  refine ⟨?_, ?_, ?_, ?_, ?_⟩
  · show grid.length ≤ (grid.map (fun r => padTo r st.header.length)).length
    rw [List.length_map]
  · intro i _ c _
    rfl
  · intro j hj1 hj2
    have hj2b : j < (grid.map (fun r => padTo r st.header.length)).length := hj2
    rw [List.length_map] at hj2b
    omega
  · intro k r hk
    exact initRowByKey_lt _ _ _ _ hk
  · intro i hi
    have hib : i < (grid.map (fun r => padTo r st.header.length)).length := hi
    rw [List.length_map] at hib
    show st.header.length ≤ ((grid.map (fun r => padTo r st.header.length)).getD i []).length
    rw [data0_getD grid st.header.length i hib, length_padTo]
    omega

theorem upsertByKey_eq_fold (grid : List Row) (keyColumn : String) (W : List String)
    (incoming : List RowObj) (amc : Bool) (h : incoming.isEmpty = false) :
    upsertByKey grid keyColumn W incoming amc =
      (incoming.foldl
        (upsertStep (upsertHeaderSt grid keyColumn W amc)
          (((upsertHeaderSt grid keyColumn W amc).hidx keyColumn).getD 0) keyColumn
          (effectiveCols keyColumn W))
        (grid.map (fun r => padTo r (upsertHeaderSt grid keyColumn W amc).header.length),
         initRowByKey
           (grid.map (fun r => padTo r (upsertHeaderSt grid keyColumn W amc).header.length))
           (((upsertHeaderSt grid keyColumn W amc).hidx keyColumn).getD 0))).1 := by
  unfold upsertByKey
  rw [h]
  rfl


/-- Claim C5: for every store and batch, after upsertByKey every original
row keeps, at each column position that no written column resolves to,
exactly its pre-upsert cell; and every newly appended row is blank at
those positions except that its key cell is always populated (not
blank). -/
theorem upsert_preservation_spec (grid : List Row) (keyColumn : String) (W : List String)
    (incoming : List RowObj) (amc : Bool) :
    (∀ i, i < grid.length → ∀ c,
      unwritten (upsertHeaderSt grid keyColumn W amc) (effectiveCols keyColumn W) c →
      cellAt (upsertByKey grid keyColumn W incoming amc) i c = cellAt grid i c) ∧
    (∀ j, grid.length ≤ j → j < (upsertByKey grid keyColumn W incoming amc).length →
      (∀ c, unwritten (upsertHeaderSt grid keyColumn W amc) (effectiveCols keyColumn W) c →
        cellAt (upsertByKey grid keyColumn W incoming amc) j c = Cell.str "") ∧
      cellAt (upsertByKey grid keyColumn W incoming amc) j
        (((upsertHeaderSt grid keyColumn W amc).hidx keyColumn).getD 0) ≠ Cell.str "") := by
  by_cases hinc : incoming.isEmpty
  · have he : upsertByKey grid keyColumn W incoming amc = grid := by
      unfold upsertByKey
      rw [if_pos hinc]
    rw [he]
    exact ⟨fun i _ c _ => rfl, fun j hj1 hj2 => absurd hj2 (by omega)⟩
  · have hne : incoming.isEmpty = false := by
      rw [Bool.eq_false_iff]
      exact hinc
    rw [upsertByKey_eq_fold grid keyColumn W incoming amc hne]
    obtain ⟨kIdx, hkey⟩ := upsertHeaderSt_key_isSome grid keyColumn W amc
    have hwf := upsertHeaderSt_HWF grid keyColumn W amc
    have hkb := hwf.1 keyColumn kIdx hkey
    have hkmem := keyColumn_mem_effectiveCols keyColumn W
    have hkidx : ((upsertHeaderSt grid keyColumn W amc).hidx keyColumn).getD 0 = kIdx := by
      rw [hkey]
      rfl
    rw [hkidx]
    have hinv := upsertFold_inv (upsertHeaderSt grid keyColumn W amc) keyColumn
      (effectiveCols keyColumn W) kIdx hwf hkey hkmem hkb grid.length
      (grid.map (fun r => padTo r (upsertHeaderSt grid keyColumn W amc).header.length)) incoming
      _ (upsert_initial_inv grid (effectiveCols keyColumn W) kIdx
        (upsertHeaderSt grid keyColumn W amc))
    obtain ⟨inv1, inv2, inv3, inv4, inv5⟩ := hinv
    constructor
    · intro i hi c hc
      rw [inv2 i hi c hc, cellAt_map_padTo]
    · intro j hj1 hj2
      exact inv3 j hj1 hj2


/-- Witness for C5: with only Ticker and Val written, the Note cell of
the matched MSFT row is preserved and the appended AAPL row is blank at
Note with a populated key cell. -/
theorem upsert_preservation_spec_witness :
    (1 < upGrid.length ∧
      unwritten (upsertHeaderSt upGrid "Ticker" ["Val"] true) (effectiveCols "Ticker" ["Val"]) 2 ∧
      cellAt (upsertByKey upGrid "Ticker" ["Val"] upBatch true) 1 2 = cellAt upGrid 1 2) ∧
    (upGrid.length ≤ 2 ∧ 2 < (upsertByKey upGrid "Ticker" ["Val"] upBatch true).length ∧
      cellAt (upsertByKey upGrid "Ticker" ["Val"] upBatch true) 2 2 = Screener.Cell.str "" ∧
      cellAt (upsertByKey upGrid "Ticker" ["Val"] upBatch true) 2
        (((upsertHeaderSt upGrid "Ticker" ["Val"] true).hidx "Ticker").getD 0) ≠
        Screener.Cell.str "") :=
  ⟨⟨by decide, by decide,
    (upsert_preservation_spec upGrid "Ticker" ["Val"] upBatch true).1 1 (by decide) 2
      (by decide)⟩,
   ⟨by decide, by decide,
    ((upsert_preservation_spec upGrid "Ticker" ["Val"] upBatch true).2 2 (by decide)
      (by decide)).1 2 (by decide),
    ((upsert_preservation_spec upGrid "Ticker" ["Val"] upBatch true).2 2 (by decide)
      (by decide)).2⟩⟩

end Screener
